import Mathlib

/-!
Shallow embedding of the core of the leaps-bounds puzzle simulator:
the sparse cell grid with adjacency masks, the actor ("cow") hierarchy
command-propagation engine, the time-travel state stack, and the
test-harness state machine, together with proofs of the specified
properties.

Sources embedded: src/direction.rs, src/point.rs, src/level/cell.rs,
src/level/cell/surroundings.rs, src/level/cell/colour.rs,
src/level/board.rs, src/level/cow.rs, src/level.rs, src/state_stack.rs,
src/level/god_level.rs.
-/

namespace Leaps

/-- Compass direction (src/direction.rs, enum Direction with
discriminants Up=0, Right=1, Down=2, Left=3). -/
inductive Direction where
  | Up
  | Right
  | Down
  | Left
deriving DecidableEq, Repr, Fintype

namespace Direction

/-- Numeric discriminant of a direction (Rust: direction as u8). -/
def toBit : Direction → Nat
  | .Up => 0
  | .Right => 1
  | .Down => 2
  | .Left => 3

/-- Direction::increment (quarter turn clockwise). -/
def increment : Direction → Direction
  | .Up => .Right
  | .Right => .Down
  | .Down => .Left
  | .Left => .Up

/-- Direction::decrement (quarter turn counterclockwise). -/
def decrement : Direction → Direction
  | .Up => .Left
  | .Right => .Up
  | .Down => .Right
  | .Left => .Down

/-- Direction::opposite. -/
def opposite : Direction → Direction
  | .Up => .Down
  | .Right => .Left
  | .Down => .Up
  | .Left => .Right

/-- Modelled from the spec: the body of Direction::for_every is not part
of the sources under src/ (only its call sites are); the spec says the
grid recomputation visits "all four compass directions", so it is
modelled as iteration over the four directions in declaration order. -/
def for_every_list : List Direction := [.Up, .Right, .Down, .Left]

end Direction

/-- A grid coordinate (src/point.rs, struct Point with fields .0 = x and
.1 = y).  i32 components are modelled as unbounded integers. -/
structure Point where
  x : Int
  y : Int
deriving DecidableEq, Repr

namespace Point

/-- The Ord instance on Point: compare the second component (y) first,
then the first (x) (src/point.rs, impl Ord for Point). -/
def blt (p q : Point) : Bool :=
  p.y < q.y || (p.y == q.y && p.x < q.x)

/-- Point::increment_2d. -/
def increment_2d (p : Point) (d : Direction) : Point :=
  match d with
  | .Up => { p with y := p.y - 1 }
  | .Right => { p with x := p.x + 1 }
  | .Down => { p with y := p.y + 1 }
  | .Left => { p with x := p.x - 1 }

end Point

/-- src/level/cell/colour.rs, enum Colour. -/
inductive Colour where
  | Red
  | Blue
  | Green
  | Orange
deriving DecidableEq, Repr, Fintype

/-- src/level/cell/surroundings.rs: a 4-bit adjacency mask stored in a
u8, one bit per compass direction. -/
structure Surroundings where
  val : Nat
deriving DecidableEq, Repr

namespace Surroundings

/-- Surroundings::new. -/
def new : Surroundings := ⟨0⟩

/-- Surroundings::set_surround: set or clear the bit for the given
direction (Rust: self.0 |= 1 << bit / self.0 &= !(1 << bit) on a u8). -/
def set_surround (s : Surroundings) (d : Direction) (value : Bool) : Surroundings :=
  let bit := d.toBit
  if value then ⟨s.val ||| (1 <<< bit)⟩
  else ⟨s.val &&& (255 ^^^ (1 <<< bit))⟩

/-- Read one bit of the adjacency mask. -/
def getBit (s : Surroundings) (d : Direction) : Bool :=
  Nat.testBit s.val d.toBit

end Surroundings

/-- src/level/cell.rs, enum GroundCell. -/
inductive GroundCell where
  | Empty
  | ColouredBlock (colour : Colour)
  | Arrow (direction : Direction)
  | ColouredArrow (colour : Colour) (direction : Direction)
  | ArrowBlock (direction : Direction)
  | RotateRight
  | RotateLeft
  | Fence (s : Surroundings)
  | Wall (s : Surroundings)
deriving DecidableEq, Repr

namespace GroundCell

/-- The discriminant of a GroundCell (Rust: std::mem::discriminant). -/
def tagNum : GroundCell → Nat
  | .Empty => 0
  | .ColouredBlock _ => 1
  | .Arrow _ => 2
  | .ColouredArrow _ _ => 3
  | .ArrowBlock _ => 4
  | .RotateRight => 5
  | .RotateLeft => 6
  | .Fence _ => 7
  | .Wall _ => 8

/-- GroundCell's Cell::set_surround impl: only Fence and Wall carry a
mask; every other variant ignores the call. -/
def set_surround (c : GroundCell) (d : Direction) (is_adjacent : Bool) : GroundCell :=
  match c with
  | .Fence s => .Fence (s.set_surround d is_adjacent)
  | .Wall s => .Wall (s.set_surround d is_adjacent)
  | c => c

/-- GroundCell's PastureCell::is_solid_to_cows impl. -/
def is_solid_to_cows : GroundCell → Bool
  | .Fence _ => true
  | .Wall _ => true
  | _ => false

/-- GroundCell::rotate_right. -/
def rotate_right : GroundCell → GroundCell
  | .Empty => .Empty
  | .ColouredBlock c => .ColouredBlock c
  | .Fence s => .Fence s
  | .Wall s => .Wall s
  | .Arrow d => .Arrow d.increment
  | .ColouredArrow c d => .ColouredArrow c d.increment
  | .ArrowBlock d => .ArrowBlock d.increment
  | .RotateLeft => .RotateRight
  | .RotateRight => .RotateLeft

/-- GroundCell::rotate_left. -/
def rotate_left : GroundCell → GroundCell
  | .Empty => .Empty
  | .ColouredBlock c => .ColouredBlock c
  | .Fence s => .Fence s
  | .Wall s => .Wall s
  | .Arrow d => .Arrow d.decrement
  | .ColouredArrow c d => .ColouredArrow c d.decrement
  | .ArrowBlock d => .ArrowBlock d.decrement
  | .RotateLeft => .RotateRight
  | .RotateRight => .RotateLeft

/-- The adjacency-mask bit of a ground cell in a direction: the stored
mask bit for the mask-carrying variants (Fence, Wall), false for every
variant that carries no mask. -/
def surroundBit (c : GroundCell) (d : Direction) : Bool :=
  match c with
  | .Fence s => s.getBit d
  | .Wall s => s.getBit d
  | _ => false

/-- Whether the variant carries an adjacency mask. -/
def hasMask : GroundCell → Bool
  | .Fence _ => true
  | .Wall _ => true
  | _ => false

end GroundCell

/-- src/level/cell.rs, enum OverlayCell. -/
inductive OverlayCell where
  | Empty
  | Success (s : Surroundings)
  | Failure (s : Surroundings)
  | Input (s : Surroundings)
  | Output (s : Surroundings)
deriving DecidableEq, Repr

namespace OverlayCell

/-- The discriminant of an OverlayCell. -/
def tagNum : OverlayCell → Nat
  | .Empty => 0
  | .Success _ => 1
  | .Failure _ => 2
  | .Input _ => 3
  | .Output _ => 4

/-- OverlayCell's Cell::set_surround impl. -/
def set_surround (c : OverlayCell) (d : Direction) (is_adjacent : Bool) : OverlayCell :=
  match c with
  | .Success s => .Success (s.set_surround d is_adjacent)
  | .Failure s => .Failure (s.set_surround d is_adjacent)
  | .Input s => .Input (s.set_surround d is_adjacent)
  | .Output s => .Output (s.set_surround d is_adjacent)
  | .Empty => .Empty

end OverlayCell

/-- The Cell trait (src/level/cell.rs): set_surround plus the
discriminant used by the default calculate_surround method. -/
class Cell (T : Type) where
  set_surround : T → Direction → Bool → T
  tagNum : T → Nat

instance : Cell GroundCell where
  set_surround := GroundCell.set_surround
  tagNum := GroundCell.tagNum

instance : Cell OverlayCell where
  set_surround := OverlayCell.set_surround
  tagNum := OverlayCell.tagNum

/-- Association-list model of im_rc::OrdMap (a map with keys kept in
ascending order and no duplicate keys): lookup. -/
def listGet {T : Type} : List (Point × T) → Point → Option T
  | [], _ => none
  | (k, v) :: rest, p => if k = p then some v else listGet rest p

/-- OrdMap::insert on the sorted association list: replaces the value if
the key is present, otherwise inserts at the ordered position. -/
def listInsert {T : Type} : List (Point × T) → Point → T → List (Point × T)
  | [], p, v => [(p, v)]
  | (k, w) :: rest, p, v =>
    if Point.blt k p then (k, w) :: listInsert rest p v
    else if k = p then (p, v) :: rest
    else (p, v) :: (k, w) :: rest

/-- OrdMap::remove on the sorted association list. -/
def listRemove {T : Type} : List (Point × T) → Point → List (Point × T)
  | [], _ => []
  | (k, w) :: rest, p => if k = p then rest else (k, w) :: listRemove rest p

/-- src/level/board.rs, struct LevelLayer: a sparse map from coordinates
to cells plus a default value for absent coordinates. -/
structure LevelLayer (T : Type) where
  layer : List (Point × T)
  default : T
deriving Repr

namespace LevelLayer

variable {T : Type} [DecidableEq T] [Cell T]

/-- LevelLayer::new. -/
def new (default : T) : LevelLayer T := ⟨[], default⟩

/-- LevelLayer::get_cell: the stored value or the layer default. -/
def get_cell (L : LevelLayer T) (p : Point) : T :=
  (listGet L.layer p).getD L.default

/-- LevelLayer::set_cell_unchecked: store the value, or remove the key
when the value equals the layer default. -/
def set_cell_unchecked (L : LevelLayer T) (p : Point) (cell : T) : LevelLayer T :=
  if cell = L.default then { L with layer := listRemove L.layer p }
  else { L with layer := listInsert L.layer p cell }

/-- LevelLayer::map_cell_unchecked. -/
def map_cell_unchecked (L : LevelLayer T) (p : Point) (f : T → T) : LevelLayer T :=
  L.set_cell_unchecked p (f (L.get_cell p))

/-- One iteration of the Direction::for_every loop in
LevelLayer::set_cell: Cell::calculate_surround compares the
discriminants of the new cell and the neighbour, records the result in
the new cell (bit for the visited direction) and in the neighbour (bit
for the opposite direction), and the neighbour is written back through
map_cell_unchecked. -/
def surroundStep (p : Point) (acc : LevelLayer T × T) (d : Direction) : LevelLayer T × T :=
  let adjacent := p.increment_2d d
  let other := acc.1.get_cell adjacent
  let is_adjacent := Cell.tagNum acc.2 == Cell.tagNum other
  let cell := Cell.set_surround acc.2 d is_adjacent
  let other := Cell.set_surround other d.opposite is_adjacent
  (acc.1.set_cell_unchecked adjacent other, cell)

/-- LevelLayer::set_cell: recompute the adjacency bits of the new cell
and of its four neighbours, then store the cell. -/
def set_cell (L : LevelLayer T) (p : Point) (cell : T) : LevelLayer T :=
  let acc := Direction.for_every_list.foldl (surroundStep p) (L, cell)
  acc.1.set_cell_unchecked p acc.2

/-- LevelLayer::map_cell. -/
def map_cell (L : LevelLayer T) (p : Point) (f : T → T) : LevelLayer T :=
  L.set_cell p (f (L.get_cell p))

/-- LevelLayer::get_input_coordinates (on the overlay layer): the
coordinates of the Input cells, in map iteration order. -/
def get_input_coordinates (L : LevelLayer OverlayCell) : List Point :=
  L.layer.filterMap fun e =>
    match e.2 with
    | OverlayCell.Input _ => some e.1
    | _ => none

/-- LevelLayer::get_output_coordinates. -/
def get_output_coordinates (L : LevelLayer OverlayCell) : List Point :=
  L.layer.filterMap fun e =>
    match e.2 with
    | OverlayCell.Output _ => some e.1
    | _ => none

/-- LevelLayer::get_coloured_blocks (on the ground layer). -/
def get_coloured_blocks (L : LevelLayer GroundCell) (coordinates : List Point) : List Colour :=
  coordinates.filterMap fun p =>
    match L.get_cell p with
    | GroundCell.ColouredBlock colour => some colour
    | _ => none

end LevelLayer

/-- src/level/board.rs, struct Board: the ground layer and the overlay
layer of a level. -/
structure Board where
  ground : LevelLayer GroundCell
  overlay : LevelLayer OverlayCell
deriving Repr

namespace Board

/-- Board::new. -/
def new (default_cell : GroundCell) (default_overlay : OverlayCell) : Board :=
  ⟨LevelLayer.new default_cell, LevelLayer.new default_overlay⟩

/-- Board::get_ground_cell. -/
def get_ground_cell (b : Board) (p : Point) : GroundCell :=
  b.ground.get_cell p

/-- Board::get_overlay_cell. -/
def get_overlay_cell (b : Board) (p : Point) : OverlayCell :=
  b.overlay.get_cell p

/-- Board::set_ground_cell. -/
def set_ground_cell (b : Board) (p : Point) (cell : GroundCell) : Board :=
  { b with ground := b.ground.set_cell p cell }

/-- Board::map_ground_cell. -/
def map_ground_cell (b : Board) (p : Point) (f : GroundCell → GroundCell) : Board :=
  { b with ground := b.ground.map_cell p f }

/-- Board::get_outputs. -/
def get_outputs (b : Board) : List Colour :=
  b.ground.get_coloured_blocks b.overlay.get_output_coordinates

/-- Board::get_inputs. -/
def get_inputs (b : Board) : List Colour :=
  b.ground.get_coloured_blocks b.overlay.get_input_coordinates

end Board

/-- src/level.rs, enum SuccessState. -/
inductive SuccessState where
  | Failed
  | Running
  | Succeeded
deriving DecidableEq, Repr, Fintype

namespace SuccessState

/-- SuccessState::combine, written as a pure binary operation (the Rust
method assigns the result to its receiver). -/
def combine (a b : SuccessState) : SuccessState :=
  match a, b with
  | .Failed, _ => .Failed
  | _, .Failed => .Failed
  | .Running, _ => .Running
  | _, .Running => .Running
  | _, _ => .Succeeded

/-- SuccessState::is_running. -/
def is_running : SuccessState → Bool
  | .Running => true
  | _ => false

end SuccessState

/-- OverlayCell::success_state (src/level/cell.rs). -/
def OverlayCell.success_state : OverlayCell → SuccessState
  | .Success _ => .Succeeded
  | .Failure _ => .Failed
  | .Empty => .Running
  | .Input _ => .Running
  | .Output _ => .Running

/-- src/level/cow.rs, enum CowSprite. -/
inductive CowSprite where
  | White
  | Grey
deriving DecidableEq, Repr, Fintype

/-- src/level/cow.rs, enum Command. -/
inductive Command where
  | Auto
  | Halt
  | Walk (direction : Direction)
  | PlaceBlock (colour : Colour)
  | RotateRight
  | RotateLeft
deriving DecidableEq, Repr

/-- src/level/cow.rs, struct Cow.  Child references are indices into the
flat cow vector (CowIndex is a plain usize wrapper). -/
structure Cow where
  position : Point
  direction : Direction
  children : List Nat
  sprite : CowSprite
deriving DecidableEq, Repr

namespace Cow

/-- Cow::get_cell: the ground cell under the cow. -/
def get_cell (cow : Cow) (board : Board) : GroundCell :=
  board.get_ground_cell cow.position

/-- Cow::walk_stop: face the given direction, then step once unless the
target cell is solid. -/
def walk_stop (cow : Cow) (board : Board) (direction : Direction) : Cow :=
  let cow := { cow with direction := direction }
  let forwards := cow.position.increment_2d direction
  if !(board.get_ground_cell forwards).is_solid_to_cows then
    { cow with position := cow.position.increment_2d direction }
  else
    cow

/-- Cow::walk_bounce: step in the current facing direction; when the
target is solid, reverse direction once and try the single opposite
step. -/
def walk_bounce (cow : Cow) (board : Board) : Cow :=
  let forwards := cow.position.increment_2d cow.direction
  if !(board.get_ground_cell forwards).is_solid_to_cows then
    { cow with position := cow.position.increment_2d cow.direction }
  else
    let opposite_dir := cow.direction.opposite
    let cow := { cow with direction := opposite_dir }
    let backwards := cow.position.increment_2d opposite_dir
    if !(board.get_ground_cell backwards).is_solid_to_cows then
      { cow with position := cow.position.increment_2d opposite_dir }
    else
      cow

/-- Cow::place_block: write a coloured block at the cow's position. -/
def place_block (cow : Cow) (board : Board) (colour : Colour) : Board :=
  board.set_ground_cell cow.position (GroundCell.ColouredBlock colour)

/-- Cow::rotate_block_right. -/
def rotate_block_right (cow : Cow) (board : Board) : Board :=
  board.map_ground_cell cow.position GroundCell.rotate_right

/-- Cow::rotate_block_left. -/
def rotate_block_left (cow : Cow) (board : Board) : Board :=
  board.map_ground_cell cow.position GroundCell.rotate_left

end Cow

/-- src/level/cow.rs, struct Cows: the flat actor collection, the player
index, and the derived list of root ("parent") actors. -/
structure Cows where
  player : Nat
  parents : List Nat
  cows : List Cow
deriving DecidableEq, Repr

namespace Cows

/-- Cows::new.  Returns none exactly when the Rust constructor would
panic from an out-of-bounds index into the parent flag vector. -/
def new (player : Nat) (cow_data : List (Point × Direction × CowSprite × List Nat)) :
    Option Cows := do
  let parent_vec := List.replicate cow_data.length true
  let parent_vec ← if player < parent_vec.length then
      some (parent_vec.set player false)
    else none
  let parent_vec ← cow_data.foldlM (fun (vec : List Bool) entry =>
      entry.2.2.2.foldlM (fun (vec : List Bool) child_index =>
        if child_index < vec.length then some (vec.set child_index false)
        else none) vec) parent_vec
  let cows := cow_data.map fun entry =>
    Cow.mk entry.1 entry.2.1 entry.2.2.2 entry.2.2.1
  let parents := (parent_vec.enum.filter fun e => e.2).map fun e => e.1
  some { player := player, parents := parents, cows := cows }

/-- Cows::get_cow (Rust indexing; none models an index panic). -/
def get_cow (cows : Cows) (i : Nat) : Option Cow :=
  cows.cows.get? i

/-- Replace the cow at an index (the effect of get_cow_mut mutation). -/
def set_cow (cows : Cows) (i : Nat) (cow : Cow) : Cows :=
  { cows with cows := cows.cows.set i cow }

/-- Cows::success_state: fold SuccessState::combine over the overlay
cells under all cows, starting from Succeeded. -/
def success_state (cows : Cows) (board : Board) : SuccessState :=
  cows.cows.foldl
    (fun acc cow => acc.combine (board.get_overlay_cell cow.position).success_state)
    .Succeeded

/-- The derived child command in Cows::update_children: read the ground
cell under the actor and map it to the command propagated to every
child. -/
def derive_child_command : GroundCell → Command
  | .Empty => .Halt
  | .ColouredBlock colour => .PlaceBlock colour
  | .Arrow _ => .Halt
  | .ArrowBlock direction => .Walk direction
  | .ColouredArrow _ _ => .Halt
  | .RotateRight => .RotateRight
  | .RotateLeft => .RotateLeft
  | .Fence _ => .Halt
  | .Wall _ => .Halt

/-- The child-colour test in Cows::conditional_walk: whether any child
stands on a coloured block of the matching colour.  none models an
index panic. -/
def any_child_on_colour (cows : Cows) (board : Board) (children : List Nat)
    (colour : Colour) : Option Bool :=
  children.foldlM (fun acc child_index => do
    let child ← cows.get_cow child_index
    pure (acc || (child.get_cell board == GroundCell.ColouredBlock colour))) false

mutual

/-- Cows::command: first update the children (propagating the command
derived from the ground cell under this actor), then apply the given
command to the actor itself.  The fuel argument bounds the recursion
depth through the child hierarchy (the Rust code assumes the hierarchy
is a forest); none means the fuel ran out or an index was out of
bounds. -/
def command : Nat → Cows → Board → Nat → Command → Option (Cows × Board)
  | 0, _, _, _, _ => none
  | fuel + 1, cows, board, cow_index, cmd => do
    let (cows, board) ← update_children fuel cows board cow_index
    let cow ← cows.get_cow cow_index
    match cmd with
    | .Auto =>
      match cow.get_cell board with
      | .Empty | .ColouredBlock _ | .ArrowBlock _ | .RotateLeft | .RotateRight
      | .Fence _ | .Wall _ =>
        some (cows.set_cow cow_index (cow.walk_bounce board), board)
      | .Arrow direction =>
        some (cows.set_cow cow_index (cow.walk_stop board direction), board)
      | .ColouredArrow colour direction => do
        let is_correct_colour ← any_child_on_colour cows board cow.children colour
        if is_correct_colour then
          some (cows.set_cow cow_index (cow.walk_stop board direction), board)
        else
          some (cows.set_cow cow_index (cow.walk_bounce board), board)
    | .Halt => some (cows, board)
    | .Walk direction =>
      some (cows.set_cow cow_index (cow.walk_stop board direction), board)
    | .PlaceBlock colour => some (cows, cow.place_block board colour)
    | .RotateLeft => some (cows, cow.rotate_block_left board)
    | .RotateRight => some (cows, cow.rotate_block_right board)

/-- Cows::update_children: derive the child command from the ground cell
under the actor (before the actor itself moves) and recursively apply it
to every child, in order, to completion. -/
def update_children (fuel : Nat) (cows : Cows) (board : Board) (cow_index : Nat) :
    Option (Cows × Board) := do
  let cow ← cows.get_cow cow_index
  let cmd := derive_child_command (cow.get_cell board)
  command_list fuel cows board cow.children cmd

/-- Apply one command to each actor of a list in order, threading the
collection and the board through. -/
def command_list : Nat → Cows → Board → List Nat → Command → Option (Cows × Board)
  | _, cows, board, [], _ => some (cows, board)
  | fuel, cows, board, child :: rest, cmd => do
    let (cows, board) ← command fuel cows board child cmd
    command_list fuel cows board rest cmd

end

/-- Cows::command_player: apply the external command to the player, then
apply Auto to every root actor from the cached parents list. -/
def command_player (fuel : Nat) (cows : Cows) (board : Board) (cmd : Command) :
    Option (Cows × Board) := do
  let (cows, board) ← command fuel cows board cows.player cmd
  let parents := cows.parents
  command_list fuel cows board parents .Auto

end Cows

/-- src/state_stack.rs, enum TimeDirection. -/
inductive TimeDirection where
  | Forward
  | Backward
deriving DecidableEq, Repr

/-- src/state_stack.rs, struct StateStack: one current state plus a
stack of older states and a time direction.  The state_stack list grows
at its tail (Vec::push appends). -/
structure StateStack (T : Type) where
  state_stack : List T
  stack_top : T
  time_direction : TimeDirection
deriving DecidableEq, Repr

namespace StateStack

variable {T : Type}

/-- StateStack::new. -/
def new (state : T) : StateStack T :=
  { state_stack := [], stack_top := state, time_direction := .Forward }

/-- StateStack::push_state. -/
def push_state (st : StateStack T) (state : T) : StateStack T :=
  match st.time_direction with
  | .Forward =>
    { st with state_stack := st.state_stack ++ [st.stack_top], stack_top := state }
  | .Backward =>
    { st with stack_top := state, time_direction := .Forward }

/-- StateStack::pop_state.  none models the panic of the unwrap on an
empty stack in the Backward branch (unreachable while the stack
invariant holds). -/
def pop_state (st : StateStack T) : Option (StateStack T) := do
  let st ← match st.time_direction with
    | .Forward =>
      if !st.state_stack.isEmpty then
        some { st with time_direction := .Backward }
      else
        some st
    | .Backward =>
      match st.state_stack.getLast? with
      | some last =>
        some { st with state_stack := st.state_stack.dropLast, stack_top := last }
      | none => none
  if st.state_stack.isEmpty then
    some { st with time_direction := .Forward }
  else
    some st

/-- StateStack::purge_states: collapse to the oldest stored state. -/
def purge_states (st : StateStack T) : StateStack T :=
  match st.state_stack with
  | [] => { st with state_stack := [], time_direction := .Forward }
  | oldest :: _ =>
    { state_stack := [], stack_top := oldest, time_direction := .Forward }

/-- StateStack::current_state.  none models the unwrap panic when the
direction is Backward and the stack is empty (unreachable while the
stack invariant holds). -/
def current_state (st : StateStack T) : Option T :=
  match st.time_direction with
  | .Forward => some st.stack_top
  | .Backward => st.state_stack.getLast?

/-- StateStack::last_state. -/
def last_state (st : StateStack T) : T :=
  match st.time_direction with
  | .Forward => st.state_stack.getLast?.getD st.stack_top
  | .Backward => st.stack_top

/-- All states held by the stack. -/
def elems (st : StateStack T) : List T :=
  st.stack_top :: st.state_stack

/-- Iterated pop_state. -/
def pop_iter (st : StateStack T) : Nat → Option (StateStack T)
  | 0 => some st
  | n + 1 => do
    let st ← st.pop_state
    st.pop_iter n

end StateStack

/-- The ground cell written into the i-th input-zone coordinate by
Board::set_inputs: the i-th input colour as a coloured block while the
input iterator yields, the Empty cell afterwards. -/
def input_cell (input : List Colour) (i : Nat) : GroundCell :=
  match input.get? i with
  | some colour => GroundCell.ColouredBlock colour
  | none => GroundCell.Empty

/-- src/level.rs, struct LevelState: both board layers, the actor
collection, and the animation frame counter. -/
structure LevelState where
  board : Board
  cows : Cows
  animation_frame : Nat
deriving Repr

namespace LevelState

/-- Modelled from the spec: LevelState::set_inputs is invoked by
GodLevelStatus::start but its body is not among the sources under src/;
the spec says the test's input sequence is placed into the board's
input-zone cells at run start, so it is modelled as Board::set_inputs on
the state's board.  Mirrors the mutating Rust signature by returning
the (possibly unchanged) state next to the Result. -/
def set_inputs (state : LevelState) (input : List Colour) :
    Except Unit Unit × LevelState :=
  let input_coordinates := state.board.overlay.get_input_coordinates
  if input_coordinates.length < input.length then
    (.error (), state)
  else
    let board := input_coordinates.enum.foldl
      (fun (b : Board) e => b.set_ground_cell e.2 (input_cell input e.1))
      state.board
    (.ok (), { state with board := board })

/-- LevelState::success_state. -/
def success_state (state : LevelState) : SuccessState :=
  state.cows.success_state state.board

/-- Board::get_outputs lifted to the state. -/
def get_outputs (state : LevelState) : List Colour :=
  state.board.get_outputs

end LevelState

/-- Board::set_inputs (src/level/board.rs): write the i-th input colour
onto the i-th input-zone coordinate and clear the remaining input-zone
cells; fails without touching the board when the input does not fit.
Mirrors the mutating Rust signature by returning the (possibly
unchanged) board next to the Result. -/
def Board.set_inputs (b : Board) (input : List Colour) :
    Except Unit Unit × Board :=
  let input_coordinates := b.overlay.get_input_coordinates
  if input_coordinates.length < input.length then
    (.error (), b)
  else
    let board := input_coordinates.enum.foldl
      (fun (acc : Board) e => acc.set_ground_cell e.2 (input_cell input e.1))
      b
    (.ok (), board)

/-- src/level/god_level.rs, enum TestTarget. -/
inductive TestTarget where
  | Reject
  | Accept
  | AcceptWith (colours : List Colour)
deriving DecidableEq, Repr

/-- src/level/god_level.rs, struct Test. -/
structure Test where
  input : List Colour
  output : TestTarget
deriving Repr

/-- src/level/god_level.rs, enum TestResult. -/
inductive TestResult where
  | Reject
  | AcceptWith (colours : List Colour)
  | NotEnoughInputSpace
deriving DecidableEq, Repr

/-- src/level/god_level.rs, struct MetaTestResult. -/
structure MetaTestResult where
  test : Test
  result : TestResult
deriving Repr

/-- src/level/god_level.rs, struct GodLevelRunningState (f64 times are
modelled as rationals). -/
structure GodLevelRunningState where
  current_state : LevelState
  old_state : LevelState
  animation_time : ℚ
  speed : ℚ
deriving Repr

/-- GodLevelRunningState::new. -/
def GodLevelRunningState.new (initial_state : LevelState) (speed : ℚ) :
    GodLevelRunningState :=
  { current_state := initial_state, old_state := initial_state,
    animation_time := speed, speed := speed }

/-- src/level/god_level.rs, enum GodLevelStatus. -/
inductive GodLevelStatus where
  | Stopped
  | Paused (test : Test) (state : GodLevelRunningState)
  | Playing (test : Test) (state : GodLevelRunningState)
  | Report (result : MetaTestResult)
  | Succeeded
deriving Repr

namespace GodLevelStatus

/-- GodLevelStatus::is_stopped. -/
def is_stopped : GodLevelStatus → Bool
  | .Stopped => true
  | _ => false

/-- GodLevelStatus::start: asserts the Stopped state (none models the
assertion failure), sets the test inputs into the level state, and
transitions to Playing on success or directly to a NotEnoughInputSpace
Report on failure. -/
def start (st : GodLevelStatus) (state : LevelState) (test : Test) (speed : ℚ) :
    Option GodLevelStatus :=
  if !st.is_stopped then none
  else
    match state.set_inputs test.input with
    | (.ok (), state) =>
      some (.Playing test (GodLevelRunningState.new state speed))
    | (.error (), _) =>
      some (.Report { test := test, result := .NotEnoughInputSpace })

/-- GodLevelStatus::pause. -/
def pause : GodLevelStatus → GodLevelStatus
  | .Stopped => .Stopped
  | .Playing test state => .Paused test state
  | .Paused test state => .Paused test state
  | .Report result => .Report result
  | .Succeeded => .Succeeded

/-- GodLevelStatus::play.  none models the panic on the Stopped
variant. -/
def play : GodLevelStatus → Option GodLevelStatus
  | .Stopped => none
  | .Playing test state => some (.Playing test state)
  | .Paused test state => some (.Playing test state)
  | .Report result => some (.Report result)
  | .Succeeded => some .Succeeded

/-- GodLevelStatus::stop. -/
def stop (_ : GodLevelStatus) : GodLevelStatus := .Stopped

end GodLevelStatus

/-- Sortedness of a layer's association list: keys strictly ascending in
the Point order (the im_rc::OrdMap representation invariant). -/
def SortedKeys {T : Type} (l : List (Point × T)) : Prop :=
  List.Pairwise (fun e1 e2 => Point.blt e1.1 e2.1 = true) l

/-- Number of entries stored under a key. -/
def keyCount {T : Type} (l : List (Point × T)) (p : Point) : Nat :=
  l.countP fun e => decide (e.1 = p)

/-- The ground layers reachable from the empty layer by set_cell and
map_cell operations. -/
inductive ReachableLayer : LevelLayer GroundCell → Prop where
  | empty : ReachableLayer (LevelLayer.new .Empty)
  | set (p : Point) (c : GroundCell) {L : LevelLayer GroundCell} :
      ReachableLayer L → ReachableLayer (L.set_cell p c)
  | map (p : Point) (f : GroundCell → GroundCell) {L : LevelLayer GroundCell} :
      ReachableLayer L → ReachableLayer (L.map_cell p f)

/-- The value stored at the written coordinate by LevelLayer::set_cell:
the given cell with each of its four adjacency bits recomputed against
the (pre-write) neighbour in that direction. -/
def recomputedCell (L : LevelLayer GroundCell) (p : Point) (c : GroundCell) : GroundCell :=
  Direction.for_every_list.foldl
    (fun acc d =>
      acc.set_surround d (acc.tagNum == (L.get_cell (p.increment_2d d)).tagNum)) c

/-- The adjacency-bit characterisation invariant of a ground layer: the
mask bit of any cell in any direction is set exactly when the cell
carries a mask and its neighbour in that direction has the same tag. -/
def BitInv (L : LevelLayer GroundCell) : Prop :=
  ∀ (a : Point) (d : Direction),
    (L.get_cell a).surroundBit d =
      ((L.get_cell a).hasMask &&
        ((L.get_cell a).tagNum == (L.get_cell (a.increment_2d d)).tagNum))

/-- The full layer invariant: sorted sparse store plus the adjacency-bit
characterisation. -/
def LayerInv (L : LevelLayer GroundCell) : Prop :=
  SortedKeys L.layer ∧ BitInv L

/-! ### Helper lemmas -/

theorem Point.blt_iff (p q : Point) :
    Point.blt p q = true ↔ (p.y < q.y ∨ (p.y = q.y ∧ p.x < q.x)) := by
  simp [Point.blt, Bool.or_eq_true, Bool.and_eq_true, decide_eq_true_eq, beq_iff_eq]

theorem Point.blt_irrefl (p : Point) : Point.blt p p = false := by
  cases h : Point.blt p p
  · rfl
  · rw [Point.blt_iff] at h
    omega

theorem Point.blt_of_not_blt {p q : Point} (h : Point.blt p q = false) (hne : p ≠ q) :
    Point.blt q p = true := by
  have h' : ¬(p.y < q.y ∨ (p.y = q.y ∧ p.x < q.x)) := by
    rw [← Point.blt_iff, h]
    simp
  rcases p with ⟨px, py⟩
  rcases q with ⟨qx, qy⟩
  rw [Point.blt_iff]
  dsimp only at h' ⊢
  by_cases hy : py = qy
  · subst hy
    right
    refine ⟨rfl, ?_⟩
    have hx : px ≠ qx := fun hx => hne (by rw [hx])
    omega
  · omega

theorem Point.blt_trans {a b c : Point} (h1 : Point.blt a b = true)
    (h2 : Point.blt b c = true) : Point.blt a c = true := by
  rw [Point.blt_iff] at h1 h2 ⊢
  omega

theorem Point.ne_of_blt {p q : Point} (h : Point.blt p q = true) : p ≠ q := by
  intro he
  subst he
  rw [Point.blt_irrefl] at h
  exact Bool.false_ne_true h

theorem listGet_insert_self {T : Type} (l : List (Point × T)) (q : Point) (v : T) :
    listGet (listInsert l q v) q = some v := by
  induction l with
  | nil => simp [listInsert, listGet]
  | cons e rest ih =>
    obtain ⟨k, w⟩ := e
    by_cases hb : Point.blt k q = true
    · have hk : k ≠ q := Point.ne_of_blt hb
      simp only [listInsert, hb, if_true, listGet]
      rw [if_neg hk]
      exact ih
    · by_cases hk : k = q
      · subst hk
        simp [listInsert, hb, listGet]
      · simp [listInsert, hb, hk, listGet]

theorem listGet_insert_ne {T : Type} (l : List (Point × T)) {p q : Point} (v : T)
    (h : p ≠ q) : listGet (listInsert l q v) p = listGet l p := by
  induction l with
  | nil =>
    simp only [listInsert, listGet]
    rw [if_neg (Ne.symm h)]
  | cons e rest ih =>
    obtain ⟨k, w⟩ := e
    by_cases hb : Point.blt k q = true
    · simp only [listInsert, hb, if_true, listGet]
      by_cases hk : k = p
      · rw [if_pos hk, if_pos hk]
      · rw [if_neg hk, if_neg hk]
        exact ih
    · by_cases hk : k = q
      · subst hk
        simp only [listInsert, hb, Bool.false_eq_true, if_false, ite_true, listGet]
        rw [if_neg (Ne.symm h), if_neg (Ne.symm h)]
      · simp only [listInsert, hb, Bool.false_eq_true, if_false, hk, ite_false, listGet]
        rw [if_neg (Ne.symm h)]

theorem listGet_remove_ne {T : Type} (l : List (Point × T)) {p q : Point}
    (h : p ≠ q) : listGet (listRemove l q) p = listGet l p := by
  induction l with
  | nil => simp [listRemove]
  | cons e rest ih =>
    obtain ⟨k, w⟩ := e
    by_cases hk : k = q
    · subst hk
      simp [listRemove, listGet, Ne.symm h]
    · simp only [listRemove, hk, ite_false, listGet]
      by_cases hp : k = p
      · rw [if_pos hp, if_pos hp]
      · rw [if_neg hp, if_neg hp]
        exact ih

theorem keyCount_insert_ne {T : Type} (l : List (Point × T)) {p q : Point} (v : T)
    (h : p ≠ q) : keyCount (listInsert l q v) p = keyCount l p := by
  induction l with
  | nil => simp [listInsert, keyCount, Ne.symm h]
  | cons e rest ih =>
    obtain ⟨k, w⟩ := e
    unfold keyCount at ih
    by_cases hb : Point.blt k q = true
    · simp only [listInsert, hb, if_true, keyCount, List.countP_cons]
      rw [ih]
    · by_cases hk : k = q
      · subst hk
        simp [listInsert, hb, keyCount, List.countP_cons, Ne.symm h]
      · simp [listInsert, hb, hk, keyCount, List.countP_cons, Ne.symm h]

theorem keyCount_remove_ne {T : Type} (l : List (Point × T)) {p q : Point}
    (h : p ≠ q) : keyCount (listRemove l q) p = keyCount l p := by
  induction l with
  | nil => simp [listRemove]
  | cons e rest ih =>
    obtain ⟨k, w⟩ := e
    unfold keyCount at ih
    by_cases hk : k = q
    · subst hk
      simp [listRemove, keyCount, List.countP_cons, Ne.symm h]
    · simp only [listRemove, hk, ite_false, keyCount, List.countP_cons]
      rw [ih]

theorem listGet_eq_none_of_keyCount_zero {T : Type} {l : List (Point × T)} {p : Point}
    (h : keyCount l p = 0) : listGet l p = none := by
  induction l with
  | nil => rfl
  | cons e rest ih =>
    obtain ⟨k, w⟩ := e
    simp only [keyCount, List.countP_cons] at h ih
    by_cases hk : k = p
    · simp [hk] at h
    · simp only [listGet, hk, ite_false]
      simp only [hk, decide_eq_true_eq, if_false] at h
      exact ih (by omega)

theorem listGet_remove_self {T : Type} {l : List (Point × T)} {p : Point}
    (h : keyCount l p ≤ 1) : listGet (listRemove l p) p = none := by
  induction l with
  | nil => rfl
  | cons e rest ih =>
    obtain ⟨k, w⟩ := e
    by_cases hk : k = p
    · subst hk
      have h0 : keyCount rest k = 0 := by
        unfold keyCount at h ⊢
        rw [List.countP_cons] at h
        have hd : decide (((k, w) : Point × T).1 = k) = true := by simp
        rw [hd, if_pos rfl] at h
        omega
      have hrw : listRemove ((k, w) :: rest) k = rest := by simp [listRemove]
      rw [hrw]
      exact listGet_eq_none_of_keyCount_zero h0
    · have h2 : keyCount rest p ≤ 1 := by
        unfold keyCount at h ⊢
        rw [List.countP_cons] at h
        have hd : decide (((k, w) : Point × T).1 = p) = false := by simp [hk]
        rw [hd] at h
        simp only [Bool.false_eq_true, if_false] at h
        omega
      simp only [listRemove, hk, ite_false, listGet]
      exact ih h2

theorem keyCount_le_one_of_sorted {T : Type} {l : List (Point × T)}
    (h : SortedKeys l) (p : Point) : keyCount l p ≤ 1 := by
  induction l with
  | nil => simp [keyCount]
  | cons e rest ih =>
    obtain ⟨k, w⟩ := e
    rw [SortedKeys, List.pairwise_cons] at h
    obtain ⟨hall, hrest⟩ := h
    have hle := ih hrest
    simp only [keyCount, List.countP_cons] at hle ⊢
    by_cases hk : k = p
    · subst hk
      have hzero : List.countP (fun e => decide (e.1 = k)) rest = 0 := by
        rw [List.countP_eq_zero]
        intro e he
        have hblt := hall e he
        simp only [decide_eq_true_eq]
        intro heq
        rw [heq] at hblt
        exact Bool.false_ne_true ((Point.blt_irrefl k) ▸ hblt)
      simp [hzero]
    · simp only [hk, decide_eq_true_eq, decide_eq_true_eq] at hle ⊢
      simpa using hle

theorem listRemove_sublist {T : Type} (l : List (Point × T)) (q : Point) :
    (listRemove l q).Sublist l := by
  induction l with
  | nil => simp [listRemove]
  | cons e rest ih =>
    obtain ⟨k, w⟩ := e
    by_cases hk : k = q
    · simp [listRemove, hk]
    · simp only [listRemove, hk, ite_false]
      exact ih.cons₂ _

theorem sortedKeys_remove {T : Type} {l : List (Point × T)} (h : SortedKeys l)
    (q : Point) : SortedKeys (listRemove l q) :=
  List.Pairwise.sublist (listRemove_sublist l q) h

theorem mem_listInsert {T : Type} {l : List (Point × T)} {q : Point} {v : T}
    {x : Point × T} (h : x ∈ listInsert l q v) : x = (q, v) ∨ x ∈ l := by
  induction l with
  | nil => simpa [listInsert] using h
  | cons e rest ih =>
    obtain ⟨k, w⟩ := e
    by_cases hb : Point.blt k q = true
    · simp only [listInsert, hb, if_true, List.mem_cons] at h
      rcases h with h | h
      · exact Or.inr (List.mem_cons.mpr (Or.inl h))
      · rcases ih h with h2 | h2
        · exact Or.inl h2
        · exact Or.inr (List.mem_cons.mpr (Or.inr h2))
    · by_cases hk : k = q
      · subst hk
        simp only [listInsert, hb, Bool.false_eq_true, if_false, ite_true,
          List.mem_cons] at h
        rcases h with h | h
        · exact Or.inl h
        · exact Or.inr (List.mem_cons.mpr (Or.inr h))
      · simp only [listInsert, hb, Bool.false_eq_true, if_false, hk, ite_false,
          List.mem_cons] at h
        rcases h with h | h
        · exact Or.inl h
        · exact Or.inr (List.mem_cons.mpr h)

theorem sortedKeys_insert {T : Type} {l : List (Point × T)} (h : SortedKeys l)
    (q : Point) (v : T) : SortedKeys (listInsert l q v) := by
  induction l with
  | nil => simp [listInsert, SortedKeys]
  | cons e rest ih =>
    obtain ⟨k, w⟩ := e
    rw [SortedKeys, List.pairwise_cons] at h
    obtain ⟨hall, hrest⟩ := h
    by_cases hb : Point.blt k q = true
    · rw [SortedKeys]
      simp only [listInsert, hb, if_true, List.pairwise_cons]
      refine ⟨?_, ih hrest⟩
      intro e2 he2
      rcases mem_listInsert he2 with h2 | h2
      · rw [h2]
        exact hb
      · exact hall e2 h2
    · by_cases hk : k = q
      · subst hk
        rw [SortedKeys]
        simp only [listInsert, hb, Bool.false_eq_true, if_false, ite_true,
          List.pairwise_cons]
        exact ⟨hall, hrest⟩
      · rw [SortedKeys]
        simp only [listInsert, hb, Bool.false_eq_true, if_false, hk, ite_false,
          List.pairwise_cons]
        have hqk : Point.blt q k = true :=
          Point.blt_of_not_blt (Bool.eq_false_iff.mpr hb) hk
        refine ⟨?_, hall, hrest⟩
        intro e2 he2
        rcases List.mem_cons.mp he2 with h2 | h2
        · rw [h2]
          exact hqk
        · exact Point.blt_trans hqk (hall e2 h2)

theorem get_scu_ne {T : Type} [DecidableEq T] (L : LevelLayer T) {p q : Point} (v : T)
    (h : p ≠ q) : (L.set_cell_unchecked q v).get_cell p = L.get_cell p := by
  unfold LevelLayer.set_cell_unchecked LevelLayer.get_cell
  by_cases hv : v = L.default
  · rw [if_pos hv]
    dsimp only
    rw [listGet_remove_ne _ h]
  · rw [if_neg hv]
    dsimp only
    rw [listGet_insert_ne _ _ h]

theorem get_scu_self {T : Type} [DecidableEq T] (L : LevelLayer T) (q : Point) (v : T)
    (h : keyCount L.layer q ≤ 1) : (L.set_cell_unchecked q v).get_cell q = v := by
  unfold LevelLayer.set_cell_unchecked LevelLayer.get_cell
  by_cases hv : v = L.default
  · rw [if_pos hv]
    dsimp only
    rw [listGet_remove_self h]
    exact hv.symm
  · rw [if_neg hv]
    dsimp only
    rw [listGet_insert_self]
    rfl

theorem default_scu {T : Type} [DecidableEq T] (L : LevelLayer T) (q : Point) (v : T) :
    (L.set_cell_unchecked q v).default = L.default := by
  unfold LevelLayer.set_cell_unchecked
  by_cases hv : v = L.default
  · rw [if_pos hv]
  · rw [if_neg hv]

theorem sorted_scu {T : Type} [DecidableEq T] (L : LevelLayer T) (q : Point) (v : T)
    (h : SortedKeys L.layer) : SortedKeys (L.set_cell_unchecked q v).layer := by
  unfold LevelLayer.set_cell_unchecked
  by_cases hv : v = L.default
  · rw [if_pos hv]
    exact sortedKeys_remove h q
  · rw [if_neg hv]
    exact sortedKeys_insert h q v

theorem keyCount_scu_ne {T : Type} [DecidableEq T] (L : LevelLayer T) {p q : Point} (v : T)
    (h : p ≠ q) : keyCount (L.set_cell_unchecked q v).layer p = keyCount L.layer p := by
  unfold LevelLayer.set_cell_unchecked
  by_cases hv : v = L.default
  · rw [if_pos hv]
    exact keyCount_remove_ne _ h
  · rw [if_neg hv]
    exact keyCount_insert_ne _ _ h

theorem natTestBit_or_shift_self (v b : Nat) : (v ||| (1 <<< b)).testBit b = true := by
  rw [Nat.testBit_lor, Nat.shiftLeft_eq, one_mul, Nat.testBit_two_pow_self, Bool.or_true]

theorem natTestBit_or_shift_other (v b i : Nat) (h : i ≠ b) :
    (v ||| (1 <<< b)).testBit i = v.testBit i := by
  rw [Nat.testBit_lor, Nat.shiftLeft_eq, one_mul,
    Nat.testBit_two_pow_of_ne (fun he => h he.symm), Bool.or_false]

theorem natTestBit_and_mask_self (v b : Nat) (hb : b < 8) :
    (v &&& (255 ^^^ (1 <<< b))).testBit b = false := by
  rw [Nat.testBit_land, Nat.testBit_xor, Nat.shiftLeft_eq, one_mul,
    Nat.testBit_two_pow_self]
  have h255 : Nat.testBit 255 b = true := by interval_cases b <;> decide
  rw [h255]
  simp

theorem natTestBit_and_mask_other (v b i : Nat) (h : i ≠ b) (hi : i < 8) :
    (v &&& (255 ^^^ (1 <<< b))).testBit i = v.testBit i := by
  rw [Nat.testBit_land, Nat.testBit_xor, Nat.shiftLeft_eq, one_mul,
    Nat.testBit_two_pow_of_ne (fun he => h he.symm)]
  have h255 : Nat.testBit 255 i = true := by interval_cases i <;> decide
  rw [h255]
  simp

theorem Surroundings.getBit_set_self (s : Surroundings) (d : Direction) (b : Bool) :
    (s.set_surround d b).getBit d = b := by
  unfold Surroundings.set_surround Surroundings.getBit
  cases b
  · rw [if_neg (by decide : ¬(false = true))]
    dsimp only
    exact natTestBit_and_mask_self s.val d.toBit (by cases d <;> decide)
  · rw [if_pos rfl]
    dsimp only
    exact natTestBit_or_shift_self s.val d.toBit

theorem Surroundings.getBit_set_other (s : Surroundings) {d d2 : Direction} (b : Bool)
    (h : d2 ≠ d) : (s.set_surround d b).getBit d2 = s.getBit d2 := by
  have hb : d2.toBit ≠ d.toBit := by
    cases d <;> cases d2 <;> first | exact absurd rfl h | decide
  unfold Surroundings.set_surround Surroundings.getBit
  cases b
  · rw [if_neg (by decide : ¬(false = true))]
    dsimp only
    exact natTestBit_and_mask_other s.val d.toBit d2.toBit hb (by cases d2 <;> decide)
  · rw [if_pos rfl]
    dsimp only
    exact natTestBit_or_shift_other s.val d.toBit d2.toBit hb

theorem GroundCell.tagNum_set_surround (c : GroundCell) (d : Direction) (b : Bool) :
    (c.set_surround d b).tagNum = c.tagNum := by
  cases c <;> rfl

theorem GroundCell.hasMask_set_surround (c : GroundCell) (d : Direction) (b : Bool) :
    (c.set_surround d b).hasMask = c.hasMask := by
  cases c <;> rfl

theorem GroundCell.surroundBit_set_self (c : GroundCell) (d : Direction) (b : Bool) :
    (c.set_surround d b).surroundBit d = (c.hasMask && b) := by
  cases c <;> simp [GroundCell.set_surround, GroundCell.surroundBit, GroundCell.hasMask,
    Surroundings.getBit_set_self]

theorem GroundCell.surroundBit_set_other (c : GroundCell) {d d2 : Direction} (b : Bool)
    (h : d2 ≠ d) : (c.set_surround d b).surroundBit d2 = c.surroundBit d2 := by
  cases c <;> simp [GroundCell.set_surround, GroundCell.surroundBit,
    Surroundings.getBit_set_other _ _ h]

theorem cellSet_ground :
    (Cell.set_surround : GroundCell → Direction → Bool → GroundCell) =
      GroundCell.set_surround := rfl

theorem cellTag_ground : (Cell.tagNum : GroundCell → Nat) = GroundCell.tagNum := rfl

theorem Point.increment_ne (p : Point) (d : Direction) : p.increment_2d d ≠ p := by
  rcases p with ⟨px, py⟩
  cases d <;> simp [Point.increment_2d, Point.mk.injEq]

theorem Point.increment_injective_dir (p : Point) {d d2 : Direction} (h : d ≠ d2) :
    p.increment_2d d ≠ p.increment_2d d2 := by
  rcases p with ⟨px, py⟩
  cases d <;> cases d2 <;> first
  | exact absurd rfl h
  | simp [Point.increment_2d, Point.mk.injEq] <;> omega

theorem Point.increment_opposite (p : Point) (d : Direction) :
    (p.increment_2d d).increment_2d d.opposite = p := by
  rcases p with ⟨px, py⟩
  cases d <;> simp [Point.increment_2d, Direction.opposite, Point.mk.injEq]

theorem Point.eq_opposite_of_increment_eq {p a : Point} {d0 d : Direction}
    (ha : a = p.increment_2d d0) (h : a.increment_2d d = p) : d = d0.opposite := by
  subst ha
  rcases p with ⟨px, py⟩
  cases d0 <;> cases d <;> first
  | rfl
  | (exfalso
     simp only [Point.increment_2d, Point.mk.injEq] at h
     omega)

theorem mem_of_getLast?_eq {T : Type} :
    ∀ {l : List T} {a : T}, l.getLast? = some a → a ∈ l
  | [], _, h => by simp at h
  | [x], a, h => by
    simp [List.getLast?] at h
    simp [h]
  | x :: y :: t, a, h => by
    rw [List.getLast?_cons_cons] at h
    exact List.mem_cons_of_mem x (mem_of_getLast?_eq h)

theorem StateStack.elems_subset_of_pop {T : Type} {st st' : StateStack T}
    (h : st.pop_state = some st') : ∀ x ∈ st'.elems, x ∈ st.elems := by
  rcases st with ⟨stack, top, dir⟩
  cases dir with
  | Forward =>
    cases stack with
    | nil =>
      have h' : st' = ⟨[], top, .Forward⟩ := by
        have : (StateStack.mk ([] : List T) top .Forward).pop_state =
            some ⟨[], top, .Forward⟩ := rfl
        rw [this] at h
        exact (Option.some.injEq _ _ ▸ h).symm
      subst h'
      exact fun x hx => hx
    | cons a t =>
      have h' : st' = ⟨a :: t, top, .Backward⟩ := by
        have : (StateStack.mk (a :: t) top .Forward).pop_state =
            some ⟨a :: t, top, .Backward⟩ := rfl
        rw [this] at h
        exact (Option.some.injEq _ _ ▸ h).symm
      subst h'
      exact fun x hx => hx
  | Backward =>
    unfold StateStack.pop_state at h
    cases hlast : stack.getLast? with
    | none => simp [hlast] at h
    | some last =>
      have hmem : last ∈ stack := mem_of_getLast?_eq hlast
      simp only [hlast] at h
      by_cases hs : (stack.dropLast).isEmpty = true <;>
        simp only [Option.bind_eq_bind, Option.some_bind, hs, if_true, if_false,
          Bool.false_eq_true, ite_false, ite_true, Option.some.injEq] at h <;>
        subst h <;>
        intro x hx <;>
        simp only [StateStack.elems, List.mem_cons] at hx ⊢ <;>
        rcases hx with hx | hx
      · exact Or.inr (hx ▸ hmem)
      · exact Or.inr (List.dropLast_subset _ hx)
      · exact Or.inr (hx ▸ hmem)
      · exact Or.inr (List.dropLast_subset _ hx)

theorem StateStack.current_mem_elems {T : Type} {st : StateStack T} {x : T}
    (h : st.current_state = some x) : x ∈ st.elems := by
  unfold StateStack.current_state at h
  rcases st with ⟨stack, top, dir⟩
  cases dir with
  | Forward =>
    simp only [Option.some.injEq] at h
    simp [StateStack.elems, h]
  | Backward =>
    simp only [StateStack.elems, List.mem_cons]
    exact Or.inr (mem_of_getLast?_eq h)

theorem StateStack.not_mem_of_pop_iter {T : Type} {x : T} :
    ∀ (n : Nat) (st st' : StateStack T), x ∉ st.elems →
      st.pop_iter n = some st' → x ∉ st'.elems := by
  intro n
  induction n with
  | zero =>
    intro st st' hx h
    simp [StateStack.pop_iter] at h
    exact h ▸ hx
  | succ n ih =>
    intro st st' hx h
    simp [StateStack.pop_iter, Option.bind_eq_some] at h
    obtain ⟨st1, h1, h2⟩ := h
    exact ih st1 st' (fun hmem => hx (StateStack.elems_subset_of_pop h1 x hmem)) h2



theorem set_cell_get_far (L : LevelLayer GroundCell) (p : Point) (c : GroundCell)
    {r : Point} (hr : r ≠ p) (hradj : ∀ d : Direction, r ≠ p.increment_2d d) :
    (L.set_cell p c).get_cell r = L.get_cell r := by
  simp only [LevelLayer.set_cell, Direction.for_every_list, List.foldl_cons,
    List.foldl_nil, LevelLayer.surroundStep]
  rw [get_scu_ne _ _ hr, get_scu_ne _ _ (hradj .Left), get_scu_ne _ _ (hradj .Down),
    get_scu_ne _ _ (hradj .Right), get_scu_ne _ _ (hradj .Up)]

theorem set_cell_get_adjacent (L : LevelLayer GroundCell) (p : Point) (c : GroundCell)
    (hs : SortedKeys L.layer) (d : Direction) :
    (L.set_cell p c).get_cell (p.increment_2d d) =
      (L.get_cell (p.increment_2d d)).set_surround d.opposite
        (c.tagNum == (L.get_cell (p.increment_2d d)).tagNum) := by
  cases d <;>
    simp only [LevelLayer.set_cell, Direction.for_every_list, List.foldl_cons,
      List.foldl_nil, LevelLayer.surroundStep, cellSet_ground, cellTag_ground]
  case Up =>
    rw [get_scu_ne _ _ (Point.increment_ne p .Up),
      get_scu_ne _ _ (Point.increment_injective_dir p
        (by decide : Direction.Up ≠ .Left)),
      get_scu_ne _ _ (Point.increment_injective_dir p
        (by decide : Direction.Up ≠ .Down)),
      get_scu_ne _ _ (Point.increment_injective_dir p
        (by decide : Direction.Up ≠ .Right)),
      get_scu_self _ _ _ (keyCount_le_one_of_sorted hs _)]
  case Right =>
    rw [get_scu_ne _ _ (Point.increment_ne p .Right),
      get_scu_ne _ _ (Point.increment_injective_dir p
        (by decide : Direction.Right ≠ .Left)),
      get_scu_ne _ _ (Point.increment_injective_dir p
        (by decide : Direction.Right ≠ .Down)),
      get_scu_self _ _ _ (by
        rw [keyCount_scu_ne _ _ (Point.increment_injective_dir p
          (by decide : Direction.Right ≠ .Up))]
        exact keyCount_le_one_of_sorted hs _),
      get_scu_ne _ _ (Point.increment_injective_dir p
        (by decide : Direction.Right ≠ .Up))]
    simp only [GroundCell.tagNum_set_surround]
  case Down =>
    rw [get_scu_ne _ _ (Point.increment_ne p .Down),
      get_scu_ne _ _ (Point.increment_injective_dir p
        (by decide : Direction.Down ≠ .Left)),
      get_scu_self _ _ _ (by
        rw [keyCount_scu_ne _ _ (Point.increment_injective_dir p
            (by decide : Direction.Down ≠ .Right)),
          keyCount_scu_ne _ _ (Point.increment_injective_dir p
            (by decide : Direction.Down ≠ .Up))]
        exact keyCount_le_one_of_sorted hs _),
      get_scu_ne _ _ (Point.increment_injective_dir p
        (by decide : Direction.Down ≠ .Right)),
      get_scu_ne _ _ (Point.increment_injective_dir p
        (by decide : Direction.Down ≠ .Up))]
    simp only [GroundCell.tagNum_set_surround]
  case Left =>
    rw [get_scu_ne _ _ (Point.increment_ne p .Left),
      get_scu_self _ _ _ (by
        rw [keyCount_scu_ne _ _ (Point.increment_injective_dir p
            (by decide : Direction.Left ≠ .Down)),
          keyCount_scu_ne _ _ (Point.increment_injective_dir p
            (by decide : Direction.Left ≠ .Right)),
          keyCount_scu_ne _ _ (Point.increment_injective_dir p
            (by decide : Direction.Left ≠ .Up))]
        exact keyCount_le_one_of_sorted hs _),
      get_scu_ne _ _ (Point.increment_injective_dir p
        (by decide : Direction.Left ≠ .Down)),
      get_scu_ne _ _ (Point.increment_injective_dir p
        (by decide : Direction.Left ≠ .Right)),
      get_scu_ne _ _ (Point.increment_injective_dir p
        (by decide : Direction.Left ≠ .Up))]
    simp only [GroundCell.tagNum_set_surround]

theorem set_cell_get_self (L : LevelLayer GroundCell) (p : Point) (c : GroundCell)
    (hs : SortedKeys L.layer) :
    (L.set_cell p c).get_cell p = recomputedCell L p c := by
  simp only [LevelLayer.set_cell, Direction.for_every_list, List.foldl_cons,
    List.foldl_nil, LevelLayer.surroundStep, cellSet_ground, cellTag_ground,
    recomputedCell]
  rw [get_scu_self _ _ _ (by
      rw [keyCount_scu_ne _ _ (Ne.symm (Point.increment_ne p .Left)),
        keyCount_scu_ne _ _ (Ne.symm (Point.increment_ne p .Down)),
        keyCount_scu_ne _ _ (Ne.symm (Point.increment_ne p .Right)),
        keyCount_scu_ne _ _ (Ne.symm (Point.increment_ne p .Up))]
      exact keyCount_le_one_of_sorted hs _)]
  rw [get_scu_ne _ _ (Point.increment_injective_dir p
      (by decide : Direction.Right ≠ .Up)),
    get_scu_ne _ _ (Point.increment_injective_dir p
      (by decide : Direction.Down ≠ .Right)),
    get_scu_ne _ _ (Point.increment_injective_dir p
      (by decide : Direction.Down ≠ .Up)),
    get_scu_ne _ _ (Point.increment_injective_dir p
      (by decide : Direction.Left ≠ .Down)),
    get_scu_ne _ _ (Point.increment_injective_dir p
      (by decide : Direction.Left ≠ .Right)),
    get_scu_ne _ _ (Point.increment_injective_dir p
      (by decide : Direction.Left ≠ .Up))]

theorem set_cell_sorted (L : LevelLayer GroundCell) (p : Point) (c : GroundCell)
    (hs : SortedKeys L.layer) : SortedKeys (L.set_cell p c).layer := by
  simp only [LevelLayer.set_cell, Direction.for_every_list, List.foldl_cons,
    List.foldl_nil, LevelLayer.surroundStep]
  exact sorted_scu _ _ _ (sorted_scu _ _ _ (sorted_scu _ _ _ (sorted_scu _ _ _
    (sorted_scu _ _ _ hs))))

theorem set_cell_default (L : LevelLayer GroundCell) (p : Point) (c : GroundCell) :
    (L.set_cell p c).default = L.default := by
  simp only [LevelLayer.set_cell, Direction.for_every_list, List.foldl_cons,
    List.foldl_nil, LevelLayer.surroundStep]
  rw [default_scu, default_scu, default_scu, default_scu, default_scu]

theorem GroundCell.set_surround_of_not_hasMask {c : GroundCell} (d : Direction)
    (b : Bool) (h : c.hasMask = false) : c.set_surround d b = c := by
  cases c <;> first
  | rfl
  | simp [GroundCell.hasMask] at h

theorem set_cell_get_ne_noMask (L : LevelLayer GroundCell) {p q : Point} (v : GroundCell)
    (hs : SortedKeys L.layer) (hne : p ≠ q) (hm : (L.get_cell p).hasMask = false) :
    (L.set_cell q v).get_cell p = L.get_cell p := by
  by_cases hadj : ∃ d : Direction, p = q.increment_2d d
  · obtain ⟨d, hd⟩ := hadj
    subst hd
    rw [set_cell_get_adjacent L q v hs d, GroundCell.set_surround_of_not_hasMask _ _ hm]
  · push_neg at hadj
    exact set_cell_get_far L q v hne hadj



theorem natBeq_comm (m n : Nat) : (m == n) = (n == m) := by
  by_cases h : m = n
  · simp [h]
  · simp [h, Ne.symm h]

theorem GroundCell.hasMask_eq (c : GroundCell) :
    c.hasMask = (c.tagNum == 7 || c.tagNum == 8) := by
  cases c <;> rfl

theorem recomputedCell_tagNum (L : LevelLayer GroundCell) (p : Point) (c : GroundCell) :
    (recomputedCell L p c).tagNum = c.tagNum := by
  simp only [recomputedCell, Direction.for_every_list, List.foldl_cons, List.foldl_nil,
    GroundCell.tagNum_set_surround]

theorem recomputedCell_hasMask (L : LevelLayer GroundCell) (p : Point) (c : GroundCell) :
    (recomputedCell L p c).hasMask = c.hasMask := by
  simp only [recomputedCell, Direction.for_every_list, List.foldl_cons, List.foldl_nil,
    GroundCell.hasMask_set_surround]

theorem recomputedCell_surroundBit (L : LevelLayer GroundCell) (p : Point)
    (c : GroundCell) (d : Direction) :
    (recomputedCell L p c).surroundBit d =
      (c.hasMask && (c.tagNum == (L.get_cell (p.increment_2d d)).tagNum)) := by
  cases d <;>
    simp [recomputedCell, Direction.for_every_list, GroundCell.surroundBit_set_self,
      GroundCell.surroundBit_set_other, GroundCell.hasMask_set_surround,
      GroundCell.tagNum_set_surround]

theorem tagNum_set_cell_get_ne (L : LevelLayer GroundCell) {r q : Point} (v : GroundCell)
    (hs : SortedKeys L.layer) (hne : r ≠ q) :
    ((L.set_cell q v).get_cell r).tagNum = (L.get_cell r).tagNum ∧
      ((L.set_cell q v).get_cell r).hasMask = (L.get_cell r).hasMask := by
  by_cases hadj : ∃ d : Direction, r = q.increment_2d d
  · obtain ⟨d, hd⟩ := hadj
    subst hd
    rw [set_cell_get_adjacent L q v hs d, GroundCell.tagNum_set_surround,
      GroundCell.hasMask_set_surround]
    exact ⟨rfl, rfl⟩
  · push_neg at hadj
    rw [set_cell_get_far L q v hne hadj]
    exact ⟨rfl, rfl⟩

theorem bitInv_set_cell {L : LevelLayer GroundCell} (hs : SortedKeys L.layer)
    (hinv : BitInv L) (p : Point) (c : GroundCell) : BitInv (L.set_cell p c) := by
  intro a d
  by_cases hap : a = p
  · subst hap
    rw [set_cell_get_self L a c hs, recomputedCell_surroundBit, recomputedCell_hasMask,
      recomputedCell_tagNum, set_cell_get_adjacent L a c hs d,
      GroundCell.tagNum_set_surround]
  · by_cases hadj : ∃ d0 : Direction, a = p.increment_2d d0
    · obtain ⟨d0, hd0⟩ := hadj
      by_cases hdo : d = d0.opposite
      · subst hdo
        subst hd0
        rw [set_cell_get_adjacent L p c hs d0, GroundCell.surroundBit_set_self,
          GroundCell.hasMask_set_surround, GroundCell.tagNum_set_surround,
          Point.increment_opposite, set_cell_get_self L p c hs, recomputedCell_tagNum,
          natBeq_comm]
      · subst hd0
        rw [set_cell_get_adjacent L p c hs d0,
          GroundCell.surroundBit_set_other _ _ hdo, GroundCell.hasMask_set_surround,
          GroundCell.tagNum_set_surround]
        have hne2 : (p.increment_2d d0).increment_2d d ≠ p := fun he =>
          hdo (Point.eq_opposite_of_increment_eq rfl he)
        rw [(tagNum_set_cell_get_ne L c hs hne2).1]
        exact hinv _ d
    · push_neg at hadj
      rw [set_cell_get_far L p c hap hadj]
      have hne2 : a.increment_2d d ≠ p := by
        intro he
        apply hadj d.opposite
        rw [← he, Point.increment_opposite]
      rw [(tagNum_set_cell_get_ne L c hs hne2).1]
      exact hinv a d

theorem layerInv_reachable {L : LevelLayer GroundCell} (h : ReachableLayer L) :
    LayerInv L := by
  induction h with
  | empty =>
    constructor
    · simp [SortedKeys, LevelLayer.new]
    · intro a d
      rfl
  | set p c _ ih =>
    exact ⟨set_cell_sorted _ p c ih.1, bitInv_set_cell ih.1 ih.2 p c⟩
  | map p f _ ih =>
    exact ⟨set_cell_sorted _ p _ ih.1, bitInv_set_cell ih.1 ih.2 p _⟩



theorem GroundCell.empty_set_surround (d : Direction) (b : Bool) :
    GroundCell.set_surround .Empty d b = .Empty := rfl

theorem scu_layer_none {T : Type} [DecidableEq T] (L : LevelLayer T) (p : Point) {v : T}
    (hc : keyCount L.layer p ≤ 1) (hv : v = L.default) :
    listGet (L.set_cell_unchecked p v).layer p = none := by
  unfold LevelLayer.set_cell_unchecked
  rw [if_pos hv]
  exact listGet_remove_self hc

theorem recomputedCell_of_noMask (L : LevelLayer GroundCell) (p : Point) {c : GroundCell}
    (hm : c.hasMask = false) : recomputedCell L p c = c := by
  simp only [recomputedCell, Direction.for_every_list, List.foldl_cons, List.foldl_nil]
  rw [GroundCell.set_surround_of_not_hasMask _ _ hm,
    GroundCell.set_surround_of_not_hasMask _ _ hm,
    GroundCell.set_surround_of_not_hasMask _ _ hm,
    GroundCell.set_surround_of_not_hasMask _ _ hm]

theorem set_cell_get_self_noMask (L : LevelLayer GroundCell) (p : Point) {c : GroundCell}
    (hs : SortedKeys L.layer) (hm : c.hasMask = false) :
    (L.set_cell p c).get_cell p = c := by
  rw [set_cell_get_self L p c hs, recomputedCell_of_noMask L p hm]

theorem input_cell_hasMask (input : List Colour) (i : Nat) :
    (input_cell input i).hasMask = false := by
  unfold input_cell
  cases input.get? i <;> rfl

theorem mem_snd_enumFrom {T : Type} :
    ∀ (l : List T) (n : Nat) (e : Nat × T), e ∈ List.enumFrom n l → e.2 ∈ l := by
  intro l
  induction l with
  | nil => intro n e h; simp [List.enumFrom] at h
  | cons x rest ih =>
    intro n e h
    simp only [List.enumFrom, List.mem_cons] at h
    rcases h with h | h
    · rw [h]
      exact List.mem_cons_self x rest
    · exact List.mem_cons_of_mem x (ih (n + 1) e h)

theorem input_coords_sublist (L : LevelLayer OverlayCell) :
    (L.get_input_coordinates).Sublist (L.layer.map Prod.fst) := by
  unfold LevelLayer.get_input_coordinates
  induction L.layer with
  | nil => simp
  | cons e rest ih =>
    obtain ⟨k, c⟩ := e
    cases c <;> simp only [List.filterMap_cons, List.map_cons] <;>
      first
      | exact ih.cons _
      | exact ih.cons₂ _

theorem input_coords_pairwise {L : LevelLayer OverlayCell} (hso : SortedKeys L.layer) :
    List.Pairwise (fun p q => Point.blt p q = true) L.get_input_coordinates := by
  apply List.Pairwise.sublist (input_coords_sublist L)
  exact (List.pairwise_map).mpr hso

theorem set_inputs_fold_preserve (input : List Colour) :
    ∀ (entries : List (Nat × Point)) (b : Board) (r : Point),
      SortedKeys b.ground.layer →
      (∀ e ∈ entries, r ≠ e.2) →
      ((b.get_ground_cell r).hasMask = false) →
      (entries.foldl
          (fun (acc : Board) e => acc.set_ground_cell e.2 (input_cell input e.1))
          b).get_ground_cell r = b.get_ground_cell r := by
  intro entries
  induction entries with
  | nil =>
    intro b r _ _ _
    rfl
  | cons e rest ih =>
    intro b r hs hne hm
    simp only [List.foldl_cons]
    have h1 : (b.set_ground_cell e.2 (input_cell input e.1)).get_ground_cell r =
        b.get_ground_cell r :=
      set_cell_get_ne_noMask b.ground _ hs (hne e (List.mem_cons_self e rest)) hm
    rw [ih _ r (set_cell_sorted _ _ _ hs)
      (fun q hq => hne q (List.mem_cons_of_mem e hq)) (h1 ▸ hm), h1]

theorem set_inputs_fold_get (input : List Colour) :
    ∀ (coords : List Point) (n : Nat) (b : Board),
      SortedKeys b.ground.layer →
      List.Pairwise (fun p q => Point.blt p q = true) coords →
      ∀ (j : Nat) (hj : j < coords.length),
        ((List.enumFrom n coords).foldl
            (fun (acc : Board) e => acc.set_ground_cell e.2 (input_cell input e.1))
            b).get_ground_cell (coords.get ⟨j, hj⟩) = input_cell input (n + j) := by
  intro coords
  induction coords with
  | nil =>
    intro n b _ _ j hj
    exact absurd hj (by simp)
  | cons pt rest ih =>
    intro n b hs hpw j hj
    rw [List.pairwise_cons] at hpw
    obtain ⟨hall, hrest⟩ := hpw
    simp only [List.enumFrom, List.foldl_cons]
    cases j with
    | zero =>
      simp only [List.get]
      rw [set_inputs_fold_preserve input _ _ _ (set_cell_sorted _ _ _ hs)
        (fun e he => Point.ne_of_blt (hall e.2 (mem_snd_enumFrom rest (n + 1) e he)))
        (by
          show ((b.ground.set_cell pt (input_cell input n)).get_cell pt).hasMask = false
          rw [set_cell_get_self_noMask b.ground pt hs (input_cell_hasMask input n)]
          exact input_cell_hasMask input n)]
      rw [Nat.add_zero]
      exact set_cell_get_self_noMask b.ground pt hs (input_cell_hasMask input n)
    | succ j =>
      simp only [List.get]
      rw [show n + (j + 1) = (n + 1) + j from by omega]
      exact ih (n + 1) _ (set_cell_sorted _ _ _ hs) hrest j (by
        simpa using Nat.lt_of_succ_lt_succ hj)

theorem foldlM_set_false_children :
    ∀ (children : List Nat) (vec : List Bool), (∀ i ∈ children, i < vec.length) →
      ∃ vec2,
        children.foldlM (fun (v : List Bool) ci =>
          if ci < v.length then some (v.set ci false) else none) vec = some vec2 ∧
        vec2.length = vec.length ∧
        (∀ j, j ∈ children → vec2[j]? = some false) ∧
        (∀ j, j ∉ children → vec2[j]? = vec[j]?) := by
  intro children
  induction children with
  | nil =>
    intro vec _
    exact ⟨vec, rfl, rfl, fun j hj => absurd hj (List.not_mem_nil j), fun j _ => rfl⟩
  | cons c rest ih =>
    intro vec hb
    have hc : c < vec.length := hb c (List.mem_cons_self c rest)
    obtain ⟨vec2, hfold, hlen, hin, hout⟩ := ih (vec.set c false)
      (by intro i hi; rw [List.length_set]; exact hb i (List.mem_cons_of_mem c hi))
    refine ⟨vec2, ?_, by rw [hlen, List.length_set], ?_, ?_⟩
    · simp only [List.foldlM_cons, if_pos hc, Option.some_bind]
      exact hfold
    · intro j hj
      rcases List.mem_cons.mp hj with hj | hj
      · subst hj
        by_cases hjr : j ∈ rest
        · exact hin j hjr
        · rw [hout j hjr]
          exact List.getElem?_set_eq_of_lt false hc
      · exact hin j hj
    · intro j hj
      have hj1 : j ≠ c := fun he => hj (he ▸ List.mem_cons_self c rest)
      have hj2 : j ∉ rest := fun he => hj (List.mem_cons_of_mem c he)
      rw [hout j hj2, List.getElem?_set_ne (fun he => hj1 he.symm)]

theorem foldlM_set_false_data :
    ∀ (data : List (Point × Direction × CowSprite × List Nat)) (vec : List Bool),
      (∀ entry ∈ data, ∀ i ∈ entry.2.2.2, i < vec.length) →
      ∃ vec2,
        data.foldlM (fun (v : List Bool) entry =>
          entry.2.2.2.foldlM (fun (v2 : List Bool) ci =>
            if ci < v2.length then some (v2.set ci false) else none) v) vec = some vec2 ∧
        vec2.length = vec.length ∧
        (∀ j entry, entry ∈ data → j ∈ entry.2.2.2 → vec2[j]? = some false) ∧
        (∀ j, (∀ entry ∈ data, j ∉ entry.2.2.2) → vec2[j]? = vec[j]?) := by
  intro data
  induction data with
  | nil =>
    intro vec _
    exact ⟨vec, rfl, rfl, fun j e he => absurd he (List.not_mem_nil e), fun j _ => rfl⟩
  | cons e rest ih =>
    intro vec hb
    obtain ⟨vec1, hfold1, hlen1, hin1, hout1⟩ := foldlM_set_false_children e.2.2.2 vec
      (hb e (List.mem_cons_self e rest))
    obtain ⟨vec2, hfold2, hlen2, hin2, hout2⟩ := ih vec1
      (by intro e2 he2 i hi
          rw [hlen1]
          exact hb e2 (List.mem_cons_of_mem e he2) i hi)
    refine ⟨vec2, ?_, by rw [hlen2, hlen1], ?_, ?_⟩
    · simp only [List.foldlM_cons, hfold1, Option.some_bind]
      exact hfold2
    · intro j e2 he2 hj
      rcases List.mem_cons.mp he2 with he2 | he2
      · subst he2
        by_cases hjr : ∀ e3 ∈ rest, j ∉ e3.2.2.2
        · rw [hout2 j hjr]
          exact hin1 j hj
        · push_neg at hjr
          obtain ⟨e3, he3, hj3⟩ := hjr
          exact hin2 j e3 he3 hj3
      · exact hin2 j e2 he2 hj
    · intro j hj
      rw [hout2 j (fun e2 he2 => hj e2 (List.mem_cons_of_mem e he2)),
        hout1 j (hj e (List.mem_cons_self e rest))]

theorem mem_parents_iff (vec : List Bool) (i : Nat) :
    (i ∈ ((vec.enum.filter fun e => e.2).map fun e => e.1)) ↔ vec[i]? = some true := by
  simp only [List.mem_map, List.mem_filter]
  constructor
  · rintro ⟨⟨j, b⟩, ⟨hmem, hb⟩, hfst⟩
    dsimp only at hb hfst
    subst hfst
    rw [show b = true from hb] at hmem
    exact (List.mk_mem_enum_iff_getElem?).mp hmem
  · intro h
    exact ⟨(i, true), ⟨List.mk_mem_enum_iff_getElem?.mpr h, rfl⟩, rfl⟩

/-! ### Claim theorems -/

/-- C3: SuccessState::combine is associative and commutative with
precedence Failed > Running > Succeeded (any Failed operand yields
Failed; otherwise any Running operand yields Running), Succeeded is its
identity, and folding it over the actors of a state (each classified by
the overlay cell under it) yields the same result in any fold order,
with the empty actor collection yielding Succeeded. -/
theorem c3_success_combine :
    (∀ a b c : SuccessState, (a.combine b).combine c = a.combine (b.combine c)) ∧
    (∀ a b : SuccessState, a.combine b = b.combine a) ∧
    (∀ a : SuccessState, a.combine .Succeeded = a ∧ SuccessState.combine .Succeeded a = a) ∧
    (∀ a : SuccessState, a.combine .Failed = .Failed ∧
      SuccessState.combine .Failed a = .Failed) ∧
    (∀ a : SuccessState, a ≠ .Failed →
      a.combine .Running = .Running ∧ SuccessState.combine .Running a = .Running) ∧
    (∀ (board : Board) (player1 player2 : Nat) (par1 par2 : List Nat)
      (l1 l2 : List Cow), l1.Perm l2 →
      Cows.success_state ⟨player1, par1, l1⟩ board =
        Cows.success_state ⟨player2, par2, l2⟩ board) ∧
    (∀ (board : Board) (player : Nat) (par : List Nat),
      Cows.success_state ⟨player, par, []⟩ board = .Succeeded) := by
  refine ⟨by decide, by decide, by decide, by decide, by decide, ?_, fun _ _ _ => rfl⟩
  intro board player1 player2 par1 par2 l1 l2 hperm
  unfold Cows.success_state
  exact hperm.foldl_eq' (fun x _ y _ z => by
    generalize (board.get_overlay_cell x.position).success_state = a
    generalize (board.get_overlay_cell y.position).success_state = b
    revert z a b
    decide) _

/-- C3 witness: the fold-order clause applied to a concrete permutation
of two cows, and the Running-precedence clause at a concrete operand. -/
theorem c3_success_combine_witness :
    (Cows.success_state ⟨0, [], [⟨⟨0, 0⟩, .Up, [], .White⟩, ⟨⟨1, 0⟩, .Up, [], .Grey⟩]⟩
        (Board.new .Empty .Empty) =
      Cows.success_state ⟨1, [0], [⟨⟨1, 0⟩, .Up, [], .Grey⟩, ⟨⟨0, 0⟩, .Up, [], .White⟩]⟩
        (Board.new .Empty .Empty)) ∧
    SuccessState.combine .Succeeded .Running = .Running :=
  ⟨c3_success_combine.2.2.2.2.2.1 (Board.new .Empty .Empty) 0 1 [] [0] _ _
    (List.Perm.swap _ _ []),
   (c3_success_combine.2.2.2.2.1 .Succeeded (by decide)).1⟩

/-- C4: from an initial state S0, push(S1), push(S2), pop(), pop() leaves
current() equal to S0; and after push(S1), push(S2), pop(), a subsequent
push(S3) discards S2 irrecoverably: no sequence of further pop() calls
ever makes current() equal to S2 again. -/
theorem c4_state_stack_round_trip {T : Type} (s0 s1 s2 s3 : T) :
    (((((StateStack.new s0).push_state s1).push_state s2).pop_state.bind
        StateStack.pop_state).bind StateStack.current_state = some s0) ∧
    (s2 ≠ s0 → s2 ≠ s1 → s2 ≠ s3 →
      ∀ st1, (((StateStack.new s0).push_state s1).push_state s2).pop_state = some st1 →
      ∀ n st', (st1.push_state s3).pop_iter n = some st' →
        st'.current_state ≠ some s2) := by
  constructor
  · rfl
  · intro h0 h1 h3 st1 hst1 n st' hiter hcur
    have hst1' : st1 = ⟨[s0, s1], s2, .Backward⟩ := by
      simp [StateStack.new, StateStack.push_state, StateStack.pop_state] at hst1
      exact hst1.symm
    subst hst1'
    have hpush : (StateStack.mk [s0, s1] s2 TimeDirection.Backward).push_state s3 =
        ⟨[s0, s1], s3, .Forward⟩ := rfl
    rw [hpush] at hiter
    have hnotmem : s2 ∉ (StateStack.mk [s0, s1] s3 TimeDirection.Forward).elems := by
      simp [StateStack.elems]
      exact ⟨h3, h0, h1⟩
    exact StateStack.not_mem_of_pop_iter n _ st' hnotmem hiter
      (StateStack.current_mem_elems hcur)

/-- C4 witness: the second clause of the round-trip theorem at concrete
states 0, 1, 2, 3 with one further pop. -/
theorem c4_state_stack_round_trip_witness :
    (((((StateStack.new (0 : Nat)).push_state 1).push_state 2).pop_state.bind
        StateStack.pop_state).bind StateStack.current_state = some 0) ∧
    ∀ st', (((StateStack.mk [0, 1] 2 TimeDirection.Backward).push_state 3).pop_iter 1 =
        some st') → st'.current_state ≠ some 2 := by
  refine ⟨(c4_state_stack_round_trip (0 : Nat) 1 2 3).1, fun st' h => ?_⟩
  exact (c4_state_stack_round_trip (0 : Nat) 1 2 3).2 (by decide) (by decide) (by decide)
    ⟨[0, 1], 2, .Backward⟩ rfl 1 st' h

/-- C7 counterexample: invoking pop on a freshly created stack (no prior
states) is a silent no-op that leaves the stack unchanged; it does not
halt with an assertion failure or panic (which the model renders as
none). -/
theorem c7_pop_empty_counterexample :
    (StateStack.new (0 : Nat)).pop_state = some (StateStack.new 0) := rfl

/-- C7 (amended): invoking play on the harness in the Stopped state
panics; invoking pop on a stack with no prior states in the Forward
direction is a silent no-op leaving the stack unchanged, and only the
Backward-direction pop on an empty history (unreachable while the stack
invariant holds) halts with a panic. -/
theorem c7_misuse_behaviour :
    (GodLevelStatus.play .Stopped = none) ∧
    (∀ (T : Type) (st : StateStack T), st.state_stack = [] →
      st.time_direction = .Forward → st.pop_state = some st) ∧
    (∀ (T : Type) (st : StateStack T), st.state_stack = [] →
      st.time_direction = .Backward → st.pop_state = none) := by
  refine ⟨rfl, fun T st h1 h2 => ?_, fun T st h1 h2 => ?_⟩ <;>
    rcases st with ⟨stack, top, dir⟩ <;>
    subst h1 <;> subst h2 <;> rfl

/-- C7 witness: the amended behaviour evaluated on a concrete stack with
no prior states. -/
theorem c7_misuse_behaviour_witness :
    (StateStack.mk ([] : List Nat) 5 .Forward).pop_state =
      some (StateStack.mk [] 5 .Forward) :=
  c7_misuse_behaviour.2.1 Nat ⟨[], 5, .Forward⟩ rfl rfl

/-- C2 (amended): for every ground layer reachable from the empty layer
by set/map operations, the adjacency bit of the cell at a in direction d
equals the adjacency bit of the neighbour in the opposite direction; and
for mask-carrying cells (Fence, Wall) that bit is set exactly when the
two cells have the same tag.  Maskless cells always report false, even
next to a same-tag neighbour. -/
theorem c2_adjacency_symmetry {L : LevelLayer GroundCell} (h : ReachableLayer L)
    (a : Point) (d : Direction) :
    (L.get_cell a).surroundBit d =
      (L.get_cell (a.increment_2d d)).surroundBit d.opposite ∧
    ((L.get_cell a).hasMask = true →
      ((L.get_cell a).surroundBit d = true ↔
        (L.get_cell a).tagNum = (L.get_cell (a.increment_2d d)).tagNum)) := by
  obtain ⟨hs, hb⟩ := layerInv_reachable h
  constructor
  · rw [hb a d, hb (a.increment_2d d) d.opposite, Point.increment_opposite]
    by_cases ht : (L.get_cell a).tagNum = (L.get_cell (a.increment_2d d)).tagNum
    · rw [GroundCell.hasMask_eq (L.get_cell a),
        GroundCell.hasMask_eq (L.get_cell (a.increment_2d d)), ht]
    · have h1 : ((L.get_cell a).tagNum ==
          (L.get_cell (a.increment_2d d)).tagNum) = false := by
        simp [ht]
      have h2 : ((L.get_cell (a.increment_2d d)).tagNum ==
          (L.get_cell a).tagNum) = false := by
        simp [Ne.symm ht]
      rw [h1, h2, Bool.and_false, Bool.and_false]
  · intro hm
    rw [hb a d, hm, Bool.true_and, beq_iff_eq]

/-- C2 counterexample: on the empty layer (reachable by the empty
operation sequence) the cells at (0,0) and its right neighbour are both
the default Empty cell — the same tag — yet the adjacency bit of (0,0)
towards the right is false, because Empty carries no mask; so the bit is
not set exactly when the two cells have the same tag. -/
theorem c2_counterexample :
    ReachableLayer (LevelLayer.new GroundCell.Empty) ∧
    ((LevelLayer.new GroundCell.Empty).get_cell ⟨0, 0⟩).tagNum =
      ((LevelLayer.new GroundCell.Empty).get_cell
        ((Point.mk 0 0).increment_2d .Right)).tagNum ∧
    ((LevelLayer.new GroundCell.Empty).get_cell ⟨0, 0⟩).surroundBit .Right = false :=
  ⟨ReachableLayer.empty, rfl, rfl⟩

/-- C2 witness: the amended theorem applied to the concrete reachable
layer holding two adjacent Fence cells. -/
theorem c2_adjacency_symmetry_witness :
    ((((LevelLayer.new GroundCell.Empty).set_cell ⟨0, 0⟩ (.Fence ⟨0⟩)).set_cell ⟨1, 0⟩
        (.Fence ⟨0⟩)).get_cell ⟨0, 0⟩).surroundBit .Right = true ↔
      ((((LevelLayer.new GroundCell.Empty).set_cell ⟨0, 0⟩ (.Fence ⟨0⟩)).set_cell ⟨1, 0⟩
        (.Fence ⟨0⟩)).get_cell ⟨0, 0⟩).tagNum =
      ((((LevelLayer.new GroundCell.Empty).set_cell ⟨0, 0⟩ (.Fence ⟨0⟩)).set_cell ⟨1, 0⟩
        (.Fence ⟨0⟩)).get_cell ((Point.mk 0 0).increment_2d .Right)).tagNum :=
  (c2_adjacency_symmetry
    (ReachableLayer.set _ _ (ReachableLayer.set _ _ ReachableLayer.empty)) ⟨0, 0⟩
    .Right).2 (by decide)

/-- C8: writing the layer default removes the coordinate from the sparse
store, and get on a coordinate with no stored entry returns the layer
default, for any integer coordinate. -/
theorem c8_default_compaction (L : LevelLayer GroundCell) (p : Point)
    (hs : SortedKeys L.layer) (hdef : L.default = .Empty) :
    listGet (L.set_cell p L.default).layer p = none ∧
    (∀ (M : LevelLayer GroundCell) (q : Point),
      listGet M.layer q = none → M.get_cell q = M.default) := by
  constructor
  · rw [hdef]
    simp only [LevelLayer.set_cell, Direction.for_every_list, List.foldl_cons,
      List.foldl_nil, LevelLayer.surroundStep, cellSet_ground,
      GroundCell.empty_set_surround]
    apply scu_layer_none
    · rw [keyCount_scu_ne _ _ (Ne.symm (Point.increment_ne p .Left)),
        keyCount_scu_ne _ _ (Ne.symm (Point.increment_ne p .Down)),
        keyCount_scu_ne _ _ (Ne.symm (Point.increment_ne p .Right)),
        keyCount_scu_ne _ _ (Ne.symm (Point.increment_ne p .Up))]
      exact keyCount_le_one_of_sorted hs p
    · rw [default_scu, default_scu, default_scu, default_scu, hdef]
  · intro M q h
    unfold LevelLayer.get_cell
    rw [h]
    rfl

/-- C8 witness: the compaction theorem applied to a layer storing a Wall
at the extreme coordinate (2147483647, -2147483648). -/
theorem c8_default_compaction_witness :
    listGet ((((LevelLayer.new GroundCell.Empty).set_cell
        ⟨2147483647, -2147483648⟩ (.Wall ⟨0⟩)).set_cell ⟨2147483647, -2147483648⟩
        ((LevelLayer.new GroundCell.Empty).set_cell
          ⟨2147483647, -2147483648⟩ (.Wall ⟨0⟩)).default).layer)
      ⟨2147483647, -2147483648⟩ = none :=
  (c8_default_compaction
    ((LevelLayer.new GroundCell.Empty).set_cell ⟨2147483647, -2147483648⟩ (.Wall ⟨0⟩))
    ⟨2147483647, -2147483648⟩
    (set_cell_sorted _ _ _ List.Pairwise.nil) (by decide)).1

/-- C10: for every board whose layers satisfy the sorted-store invariant
and every input colour sequence that fits, set_inputs succeeds, writes
the i-th input colour as a coloured block onto the i-th input-zone
coordinate, overwrites every remaining input-zone cell with Empty, and
the input-zone coordinates are taken in strictly ascending row-major
raster order (compare y first, then x). -/
theorem c10_set_inputs (b : Board) (input : List Colour)
    (hso : SortedKeys b.overlay.layer) (hsg : SortedKeys b.ground.layer)
    (hfit : input.length ≤ b.overlay.get_input_coordinates.length) :
    (∃ b2, b.set_inputs input = (.ok (), b2) ∧
      (∀ (j : Nat) (hj : j < input.length)
          (hj2 : j < b.overlay.get_input_coordinates.length),
        b2.get_ground_cell (b.overlay.get_input_coordinates.get ⟨j, hj2⟩) =
          .ColouredBlock (input.get ⟨j, hj⟩)) ∧
      (∀ (j : Nat), input.length ≤ j →
        ∀ (hj2 : j < b.overlay.get_input_coordinates.length),
        b2.get_ground_cell (b.overlay.get_input_coordinates.get ⟨j, hj2⟩) =
          .Empty)) ∧
    List.Pairwise (fun p q => Point.blt p q = true) b.overlay.get_input_coordinates := by
  have hpw := input_coords_pairwise hso
  refine ⟨⟨(List.enum b.overlay.get_input_coordinates).foldl
      (fun (acc : Board) e => acc.set_ground_cell e.2 (input_cell input e.1)) b,
    ?_, ?_, ?_⟩, hpw⟩
  · unfold Board.set_inputs
    rw [if_neg (by omega)]
  · intro j hj hj2
    have h := set_inputs_fold_get input b.overlay.get_input_coordinates 0 b hsg hpw j hj2
    have hic : input_cell input (0 + j) = .ColouredBlock (input.get ⟨j, hj⟩) := by
      unfold input_cell
      rw [Nat.zero_add, List.get?_eq_get hj]
    exact h.trans hic
  · intro j hj hj2
    have h := set_inputs_fold_get input b.overlay.get_input_coordinates 0 b hsg hpw j hj2
    have hic : input_cell input (0 + j) = .Empty := by
      unfold input_cell
      rw [Nat.zero_add, List.get?_eq_none.mpr hj]
    exact h.trans hic

/-- C10 witness: a board with input zones at (0,0) and (1,0) and input
[Red]: Red lands on (0,0), the remaining input cell is cleared. -/
theorem c10_set_inputs_witness :
    ∃ b2, Board.set_inputs
        ⟨⟨[], .Empty⟩,
         ⟨[(⟨0, 0⟩, .Input ⟨0⟩), (⟨1, 0⟩, .Input ⟨0⟩)], .Empty⟩⟩ [Colour.Red] =
      (.ok (), b2) ∧
      b2.get_ground_cell ⟨0, 0⟩ = .ColouredBlock .Red ∧
      b2.get_ground_cell ⟨1, 0⟩ = .Empty := by
  obtain ⟨⟨b2, heq, hblocks, hempty⟩, hpw⟩ := c10_set_inputs
    ⟨⟨[], .Empty⟩, ⟨[(⟨0, 0⟩, .Input ⟨0⟩), (⟨1, 0⟩, .Input ⟨0⟩)], .Empty⟩⟩
    [Colour.Red] (by simp [SortedKeys]; decide) List.Pairwise.nil (by decide)
  exact ⟨b2, heq, hblocks 0 (by decide) (by decide), hempty 1 (by decide) (by decide)⟩

/-- C6: one walk_bounce call attempts one step in the facing direction;
if that target cell is solid it reverses the direction exactly once and
attempts one step in the reversed direction; if that too is solid the
position is unchanged and the direction is reversed exactly once.  The
result depends only on the solidity of the two inspected cells, so no
further direction is ever checked, and the call is total. -/
theorem c6_walk_bounce (board : Board) (cow : Cow) :
    ((board.get_ground_cell (cow.position.increment_2d cow.direction)).is_solid_to_cows
        = false →
      cow.walk_bounce board =
        { cow with position := cow.position.increment_2d cow.direction }) ∧
    ((board.get_ground_cell (cow.position.increment_2d cow.direction)).is_solid_to_cows
        = true →
      (board.get_ground_cell
          (cow.position.increment_2d cow.direction.opposite)).is_solid_to_cows = false →
      cow.walk_bounce board =
        { cow with position := cow.position.increment_2d cow.direction.opposite,
                   direction := cow.direction.opposite }) ∧
    ((board.get_ground_cell (cow.position.increment_2d cow.direction)).is_solid_to_cows
        = true →
      (board.get_ground_cell
          (cow.position.increment_2d cow.direction.opposite)).is_solid_to_cows = true →
      cow.walk_bounce board = { cow with direction := cow.direction.opposite }) ∧
    (∀ board2 : Board,
      (board2.get_ground_cell (cow.position.increment_2d cow.direction)).is_solid_to_cows
          = (board.get_ground_cell
              (cow.position.increment_2d cow.direction)).is_solid_to_cows →
      (board2.get_ground_cell
          (cow.position.increment_2d cow.direction.opposite)).is_solid_to_cows
          = (board.get_ground_cell
              (cow.position.increment_2d cow.direction.opposite)).is_solid_to_cows →
      cow.walk_bounce board2 = cow.walk_bounce board) := by
  refine ⟨?_, ?_, ?_, ?_⟩
  · intro h1
    simp [Cow.walk_bounce, h1]
  · intro h1 h2
    simp [Cow.walk_bounce, h1, h2]
  · intro h1 h2
    simp [Cow.walk_bounce, h1, h2]
  · intro b2 h1 h2
    simp only [Cow.walk_bounce, h1, h2]

/-- C6 witness: an actor walled in on both sides stays in place with its
direction reversed exactly once. -/
theorem c6_walk_bounce_witness :
    Cow.walk_bounce ⟨⟨0, 0⟩, .Right, [], .White⟩
      ⟨⟨[(⟨-1, 0⟩, .Wall ⟨0⟩), (⟨1, 0⟩, .Fence ⟨0⟩)], .Empty⟩, ⟨[], .Empty⟩⟩ =
    ⟨⟨0, 0⟩, .Left, [], .White⟩ :=
  (c6_walk_bounce ⟨⟨[(⟨-1, 0⟩, .Wall ⟨0⟩), (⟨1, 0⟩, .Fence ⟨0⟩)], .Empty⟩, ⟨[], .Empty⟩⟩
    ⟨⟨0, 0⟩, .Right, [], .White⟩).2.2.1 (by decide) (by decide)

/-- C5: invoking start from the Stopped harness state transitions to
Playing when the test's input sequence fits into the board's input-zone
cell count, and otherwise directly to a NotEnoughInputSpace Report
without entering Playing, with set_inputs leaving the state unchanged in
the failure case. -/
theorem c5_start_transition (state : LevelState) (test : Test) (speed : ℚ) :
    (test.input.length ≤ state.board.overlay.get_input_coordinates.length →
      ∃ state2, state.set_inputs test.input = (.ok (), state2) ∧
        GodLevelStatus.start .Stopped state test speed =
          some (.Playing test (GodLevelRunningState.new state2 speed))) ∧
    (state.board.overlay.get_input_coordinates.length < test.input.length →
      GodLevelStatus.start .Stopped state test speed =
        some (.Report ⟨test, .NotEnoughInputSpace⟩) ∧
      state.set_inputs test.input = (.error (), state)) := by
  constructor
  · intro hfit
    have hnot : ¬(state.board.overlay.get_input_coordinates.length <
        test.input.length) := by omega
    have hset : state.set_inputs test.input =
        (.ok (), { state with board :=
          (state.board.overlay.get_input_coordinates.enum.foldl
            (fun (b : Board) e => b.set_ground_cell e.2 (input_cell test.input e.1))
            state.board) }) := by
      unfold LevelState.set_inputs
      rw [if_neg hnot]
    refine ⟨_, hset, ?_⟩
    unfold GodLevelStatus.start
    rw [if_neg (by decide), hset]
  · intro hlt
    have hset : state.set_inputs test.input = (.error (), state) := by
      unfold LevelState.set_inputs
      rw [if_pos hlt]
    refine ⟨?_, hset⟩
    unfold GodLevelStatus.start
    rw [if_neg (by decide), hset]

/-- C5 witness: a board with zero input-zone cells and test input [Red]
goes straight to Report(NotEnoughInputSpace); an empty input goes to
Playing. -/
theorem c5_start_transition_witness :
    (GodLevelStatus.start .Stopped ⟨⟨⟨[], .Empty⟩, ⟨[], .Empty⟩⟩, ⟨0, [], []⟩, 0⟩
        ⟨[.Red], .Reject⟩ 500 =
      some (.Report ⟨⟨[.Red], .Reject⟩, .NotEnoughInputSpace⟩)) ∧
    (∃ state2,
      LevelState.set_inputs ⟨⟨⟨[], .Empty⟩, ⟨[], .Empty⟩⟩, ⟨0, [], []⟩, 0⟩ [] =
        (.ok (), state2) ∧
      GodLevelStatus.start .Stopped ⟨⟨⟨[], .Empty⟩, ⟨[], .Empty⟩⟩, ⟨0, [], []⟩, 0⟩
        ⟨[], .Accept⟩ 500 =
        some (.Playing ⟨[], .Accept⟩ (GodLevelRunningState.new state2 500))) :=
  ⟨((c5_start_transition ⟨⟨⟨[], .Empty⟩, ⟨[], .Empty⟩⟩, ⟨0, [], []⟩, 0⟩
      ⟨[.Red], .Reject⟩ 500).2 (by decide)).1,
   (c5_start_transition ⟨⟨⟨[], .Empty⟩, ⟨[], .Empty⟩⟩, ⟨0, [], []⟩, 0⟩
      ⟨[], .Accept⟩ 500).1 (by decide)⟩

/-- C9: the derived root ("parents") list of the actor-collection
constructor contains exactly the indices that are neither the player
index nor listed as a child of any actor; in particular the player is
never a root, so a player-commanded tick gives the player exactly the
externally supplied command and never an additional Auto. -/
theorem c9_roots (player : Nat)
    (cow_data : List (Point × Direction × CowSprite × List Nat))
    (hp : player < cow_data.length)
    (hc : ∀ entry ∈ cow_data, ∀ i ∈ entry.2.2.2, i < cow_data.length) :
    ∃ cows, Cows.new player cow_data = some cows ∧
      cows.player = player ∧
      (∀ i, i ∈ cows.parents ↔
        (i < cow_data.length ∧ i ≠ player ∧ ∀ entry ∈ cow_data, i ∉ entry.2.2.2)) ∧
      player ∉ cows.parents := by
  obtain ⟨vec2, hfold, hlen, hin, hout⟩ := foldlM_set_false_data cow_data
    ((List.replicate cow_data.length true).set player false)
    (by intro e he i hi
        rw [List.length_set, List.length_replicate]
        exact hc e he i hi)
  have hchar : ∀ i, vec2[i]? = some true ↔
      (i < cow_data.length ∧ i ≠ player ∧ ∀ entry ∈ cow_data, i ∉ entry.2.2.2) := by
    intro i
    constructor
    · intro h
      by_cases hch : ∀ entry ∈ cow_data, i ∉ entry.2.2.2
      · rw [hout i hch] at h
        by_cases hip : i = player
        · subst hip
          rw [List.getElem?_set_eq_of_lt false (by simpa using hp)] at h
          cases h
        · rw [List.getElem?_set_ne (fun he => hip he.symm),
            List.getElem?_replicate] at h
          by_cases hil : i < cow_data.length
          · exact ⟨hil, hip, hch⟩
          · rw [if_neg hil] at h
            cases h
      · push_neg at hch
        obtain ⟨entry, hmem, hin2⟩ := hch
        rw [hin i entry hmem hin2] at h
        cases h
    · rintro ⟨hil, hip, hch⟩
      rw [hout i hch, List.getElem?_set_ne (fun he => hip he.symm),
        List.getElem?_replicate, if_pos hil]
  refine ⟨Cows.mk player ((vec2.enum.filter fun e => e.2).map fun e => e.1)
      (cow_data.map fun entry =>
        Cow.mk entry.1 entry.2.1 entry.2.2.2 entry.2.2.1), ?_, rfl, ?_, ?_⟩
  · unfold Cows.new
    rw [if_pos (show player < (List.replicate cow_data.length true).length by
      simpa using hp)]
    simp only [Option.bind_eq_bind, Option.some_bind]
    rw [hfold]
    simp only [Option.some_bind]
  · intro i
    dsimp only
    rw [mem_parents_iff]
    exact hchar i
  · intro hmem
    dsimp only at hmem
    rw [mem_parents_iff] at hmem
    exact ((hchar player).mp hmem).2.1 rfl

/-- C9 witness: the three-cow collection from LevelState::new, player 0,
cow 1 owning child 2: the root list is exactly [1]. -/
theorem c9_roots_witness :
    ∃ cows, Cows.new 0 [(⟨3, 3⟩, .Right, .Grey, []), (⟨10, 10⟩, .Right, .White, [2]),
        (⟨10, 5⟩, .Right, .White, [])] = some cows ∧
      cows.player = 0 ∧ (1 ∈ cows.parents ∧ 0 ∉ cows.parents ∧ 2 ∉ cows.parents) := by
  obtain ⟨cows, hnew, hplayer, hiff, hnp⟩ := c9_roots 0
    [(⟨3, 3⟩, .Right, .Grey, []), (⟨10, 10⟩, .Right, .White, [2]),
      (⟨10, 5⟩, .Right, .White, [])] (by decide)
    (by intro e he i hi
        fin_cases he <;> simp_all)
  refine ⟨cows, hnew, hplayer, ?_, hnp, ?_⟩
  · rw [hiff 1]
    refine ⟨by decide, by decide, ?_⟩
    intro e he
    fin_cases he <;> simp
  · intro hmem
    have := (hiff 2).mp hmem
    have h2 := this.2.2
    have := h2 (⟨10, 10⟩, .Right, .White, [2]) (by simp)
    simp at this



/-- C1: one application of a command to an actor first derives a child
command from the ground cell under the actor — a coloured block derives
PlaceBlock of that colour — recursively applies the derived command to
every child to completion, and only then applies the given command to
the actor itself.  For a parent standing on a coloured block with one
child, one Auto application places a block of that colour under the
child (derived from the parent's pre-move cell), and the parent then
walk-bounces on the board already updated by the child. -/
theorem c1_propagation (b : Board) (p q : Point) (col : Colour) (dp dc : Direction)
    (sp sc : CowSprite) (hpq : p ≠ q) (hsg : SortedKeys b.ground.layer)
    (hcell : b.get_ground_cell p = .ColouredBlock col) :
    Cows.derive_child_command (b.get_ground_cell p) = .PlaceBlock col ∧
    Cows.command 2 (Cows.mk 0 [] [Cow.mk p dp [1] sp, Cow.mk q dc [] sc]) b 0 .Auto =
      some (Cows.mk 0 []
          [(Cow.mk p dp [1] sp).walk_bounce (b.set_ground_cell q (.ColouredBlock col)),
            Cow.mk q dc [] sc],
        b.set_ground_cell q (.ColouredBlock col)) ∧
    (b.set_ground_cell q (.ColouredBlock col)).get_ground_cell q =
      .ColouredBlock col ∧
    (b.set_ground_cell q (.ColouredBlock col)).get_ground_cell p =
      .ColouredBlock col := by
  have hb1p : (b.set_ground_cell q (.ColouredBlock col)).get_ground_cell p =
      .ColouredBlock col := by
    have h2 := set_cell_get_ne_noMask b.ground (GroundCell.ColouredBlock col) hsg hpq
      (by rw [show b.ground.get_cell p = .ColouredBlock col from hcell]; rfl)
    rw [show b.ground.get_cell p = .ColouredBlock col from hcell] at h2
    exact h2
  have hb1q : (b.set_ground_cell q (.ColouredBlock col)).get_ground_cell q =
      .ColouredBlock col :=
    set_cell_get_self_noMask b.ground q hsg rfl
  refine ⟨by rw [hcell]; rfl, ?_, hb1q, hb1p⟩
  simp only [Cows.command, Cows.update_children, Cows.command_list, Cows.get_cow,
    List.get?, Option.bind_eq_bind, Option.some_bind, Cow.get_cell]
  rw [hcell]
  simp only [Cows.derive_child_command, Cow.place_block, Cows.set_cow]
  simp only [Option.bind_eq_bind, Option.some_bind, List.get?]
  rw [hb1p]
  dsimp only [List.set]

/-- C1 witness: the propagation theorem at a concrete board: the parent
at (0,0) on a Red block with one child at (3,0); after one Auto tick the
child's cell holds a Red block and the parent has moved. -/
theorem c1_propagation_witness :
    (Cows.command 2 (Cows.mk 0 [] [Cow.mk ⟨0, 0⟩ .Right [1] .White,
        Cow.mk ⟨3, 0⟩ .Up [] .Grey])
        ⟨⟨[(⟨0, 0⟩, .ColouredBlock .Red)], .Empty⟩, ⟨[], .Empty⟩⟩ 0 .Auto =
      some (Cows.mk 0 []
          [(Cow.mk ⟨0, 0⟩ .Right [1] .White).walk_bounce
              (Board.set_ground_cell
                ⟨⟨[(⟨0, 0⟩, .ColouredBlock .Red)], .Empty⟩, ⟨[], .Empty⟩⟩
                ⟨3, 0⟩ (.ColouredBlock .Red)),
            Cow.mk ⟨3, 0⟩ .Up [] .Grey],
        Board.set_ground_cell ⟨⟨[(⟨0, 0⟩, .ColouredBlock .Red)], .Empty⟩, ⟨[], .Empty⟩⟩
          ⟨3, 0⟩ (.ColouredBlock .Red))) ∧
    (Board.set_ground_cell ⟨⟨[(⟨0, 0⟩, .ColouredBlock .Red)], .Empty⟩, ⟨[], .Empty⟩⟩
        ⟨3, 0⟩ (.ColouredBlock .Red)).get_ground_cell ⟨3, 0⟩ = .ColouredBlock .Red :=
  ⟨(c1_propagation ⟨⟨[(⟨0, 0⟩, .ColouredBlock .Red)], .Empty⟩, ⟨[], .Empty⟩⟩
      ⟨0, 0⟩ ⟨3, 0⟩ .Red .Right .Up .White .Grey (by decide)
      (by simp [SortedKeys]) (by decide)).2.1,
   (c1_propagation ⟨⟨[(⟨0, 0⟩, .ColouredBlock .Red)], .Empty⟩, ⟨[], .Empty⟩⟩
      ⟨0, 0⟩ ⟨3, 0⟩ .Red .Right .Up .White .Grey (by decide)
      (by simp [SortedKeys]) (by decide)).2.2.1⟩

end Leaps
